import Mathlib

set_option maxHeartbeats 1000000

namespace Unstack

/-! Shallow embedding of the multi-provider AI routing and generation pipeline
of the repository (src/src/services/contentService.ts, aiServiceRouter.ts,
bedrockService.ts, localContentService.ts and src/types.ts).

All external effects are modelled explicitly: provider backends are oracle
functions supplied as parameters, cancellation checks are boolean functions of
the observable run state, progress callbacks are recorded as a list of emitted
Book snapshots (the value of the book at the moment `onProgress` is invoked),
and the uuid generator is a supply function `Nat → String`. -/

/-- Lifecycle status of a chapter or sub-chapter (src/types.ts). -/
inductive Status
  | pending
  | generating
  | completed
deriving DecidableEq

/-- Lifecycle status of a whole book (src/types.ts). -/
inductive BookStatus
  | draft
  | generating
  | completed
deriving DecidableEq

/-- SubChapter record (src/types.ts). `content` is optional generated text. -/
structure SubChapter where
  id : String
  title : String
  description : String
  content : Option String := none
  imageUrl : Option String := none
  status : Status
deriving DecidableEq

/-- BookChapter record (src/types.ts). `subChapters` is absent until outline
generation for the chapter has run. -/
structure BookChapter where
  id : String
  title : String
  description : String
  subChapters : Option (List SubChapter) := none
  imageUrl : Option String := none
  status : Status
deriving DecidableEq

/-- Book record (src/types.ts); the `audiobook` field (UI audio data) is not
part of the generation core and is omitted. -/
structure Book where
  id : String
  title : String
  author : Option String := none
  description : String
  genre : String
  subGenre : Option String := none
  tone : String
  heatLevel : Option String := none
  perspective : Option String := none
  targetAudience : Option String := none
  coverUrl : Option String := none
  status : BookStatus
  chapters : List BookChapter
deriving DecidableEq

/-! ## Bedrock retry loop (src/src/services/bedrockService.ts, callClaudeModel)

The backend is an oracle mapping the attempt index to either the response text
(the trimmed, joined text blocks of a successful Converse call) or the `name`
of the raised error. The cancellation check is polled exactly where the source
polls `isCancelledFn`; it is modelled as a function of the poll index (the
source polls once per loop iteration, at the top, so poll index = attempt
index). The run records the number of backend invocations, the number of
cancellation polls, and the backoff delays (ms) waited between attempts. -/

deriving instance DecidableEq for Except

/-- Error outcome of `callClaudeModel`: cooperative cancellation or a provider
error carrying the message/name of the thrown error. -/
inductive ClaudeErr
  | cancelled
  | provider (name : String)
deriving DecidableEq

/-- Observable outcome of one `callClaudeModel` invocation. -/
structure ClaudeRun where
  result : Except ClaudeErr String
  attempts : Nat
  polls : Nat
  delays : List Nat
deriving DecidableEq

/-- `const maxRetries = 3` in callClaudeModel. -/
def maxRetries : Nat := 3

/-- The retry loop of callClaudeModel: `for (attempt = 0; attempt <= maxRetries;
attempt++)`, with `fuel = maxRetries + 1 - attempt` remaining iterations.
Each iteration: poll the cancellation check (throw `Generation cancelled` if
set), invoke the backend; an empty response raises `Empty response from Claude`
(caught and rethrown: its name is not ThrottlingException); on an error with
`attempt >= maxRetries` (i.e. `fuel = 1`, one iteration left) the error is
rethrown; a ThrottlingException waits `2 ^ attempt * 1000` ms and retries;
any other error is rethrown immediately. -/
def callClaudeGo (backend : Nat → Except String String) (cancel : Nat → Bool) :
    Nat → Nat → List Nat → ClaudeRun
  | 0, attempt, delays =>
      ⟨.error (.provider "Maximum retries exceeded"), attempt, attempt, delays⟩
  | fuel + 1, attempt, delays =>
      if cancel attempt then ⟨.error .cancelled, attempt, attempt + 1, delays⟩
      else
        match backend attempt with
        | .ok text =>
            if text = "" then
              ⟨.error (.provider "Empty response from Claude"), attempt + 1, attempt + 1, delays⟩
            else
              ⟨.ok text, attempt + 1, attempt + 1, delays⟩
        | .error name =>
            if fuel = 0 then
              ⟨.error (.provider name), attempt + 1, attempt + 1, delays⟩
            else if name = "ThrottlingException" then
              callClaudeGo backend cancel fuel (attempt + 1) (delays ++ [2 ^ attempt * 1000])
            else
              ⟨.error (.provider name), attempt + 1, attempt + 1, delays⟩

/-- callClaudeModel (bedrockService.ts lines 49-117). -/
def callClaudeModel (backend : Nat → Except String String) (cancel : Nat → Bool) : ClaudeRun :=
  callClaudeGo backend cancel (maxRetries + 1) 0 []

theorem callClaudeGo_step (backend : Nat → Except String String) (cancel : Nat → Bool)
    (fuel attempt : Nat) (delays : List Nat) :
    callClaudeGo backend cancel (fuel + 1) attempt delays =
      if cancel attempt then ⟨.error .cancelled, attempt, attempt + 1, delays⟩
      else
        match backend attempt with
        | .ok text =>
            if text = "" then
              ⟨.error (.provider "Empty response from Claude"), attempt + 1, attempt + 1, delays⟩
            else
              ⟨.ok text, attempt + 1, attempt + 1, delays⟩
        | .error name =>
            if fuel = 0 then
              ⟨.error (.provider name), attempt + 1, attempt + 1, delays⟩
            else if name = "ThrottlingException" then
              callClaudeGo backend cancel fuel (attempt + 1) (delays ++ [2 ^ attempt * 1000])
            else
              ⟨.error (.provider name), attempt + 1, attempt + 1, delays⟩ := by
  rw [callClaudeGo]

/-- Claim C2: with no cancellation, a call whose backend throttles on the first
two attempts and succeeds on the third returns the successful text having
waited 1000 ms then 2000 ms between attempts; a backend that throttles on 4
consecutive attempts makes exactly 4 attempts (no 5th) and fails with the
throttling error after waiting 1s/2s/4s; a non-throttling error on the first
attempt propagates immediately with no retry and no delay. -/
theorem claim_C2_retry_backoff
    (b1 b2 b3 : Nat → Except String String) (t e : String)
    (h10 : b1 0 = .error "ThrottlingException")
    (h11 : b1 1 = .error "ThrottlingException")
    (h12 : b1 2 = .ok t) (ht : t ≠ "")
    (h2 : ∀ k < 4, b2 k = .error "ThrottlingException")
    (h30 : b3 0 = .error e) (he : e ≠ "ThrottlingException") :
    callClaudeModel b1 (fun _ => false) = ⟨.ok t, 3, 3, [1000, 2000]⟩ ∧
    callClaudeModel b2 (fun _ => false) =
      ⟨.error (.provider "ThrottlingException"), 4, 4, [1000, 2000, 4000]⟩ ∧
    callClaudeModel b3 (fun _ => false) = ⟨.error (.provider e), 1, 1, []⟩ := by
  refine ⟨?_, ?_, ?_⟩
  · show callClaudeGo b1 (fun _ => false) (3 + 1) 0 [] = _
    rw [callClaudeGo_step, h10]
    norm_num
    rw [callClaudeGo_step, h11]
    norm_num
    rw [callClaudeGo_step, h12]
    simp [ht]
  · show callClaudeGo b2 (fun _ => false) (3 + 1) 0 [] = _
    rw [callClaudeGo_step, h2 0 (by norm_num)]
    norm_num
    rw [callClaudeGo_step, h2 1 (by norm_num)]
    norm_num
    rw [callClaudeGo_step, h2 2 (by norm_num)]
    norm_num
    rw [callClaudeGo_step, h2 3 (by norm_num)]
    norm_num
  · show callClaudeGo b3 (fun _ => false) (3 + 1) 0 [] = _
    rw [callClaudeGo_step, h30]
    simp [he]

/-- Claim C2 witness: the retry theorem instantiated at concrete backends. -/
theorem claim_C2_retry_backoff_witness :
    ((fun k => if k < 2 then Except.error "ThrottlingException" else Except.ok "done" :
        Nat → Except String String) 0 = .error "ThrottlingException") ∧
    callClaudeModel
      (fun k => if k < 2 then Except.error "ThrottlingException" else Except.ok "done")
      (fun _ => false) = ⟨.ok "done", 3, 3, [1000, 2000]⟩ ∧
    callClaudeModel (fun _ => Except.error "ThrottlingException") (fun _ => false) =
      ⟨.error (.provider "ThrottlingException"), 4, 4, [1000, 2000, 4000]⟩ ∧
    callClaudeModel (fun _ => Except.error "ValidationException") (fun _ => false) =
      ⟨.error (.provider "ValidationException"), 1, 1, []⟩ := by
  refine ⟨by decide, ?_⟩
  exact claim_C2_retry_backoff
    (fun k => if k < 2 then Except.error "ThrottlingException" else Except.ok "done")
    (fun _ => Except.error "ThrottlingException")
    (fun _ => Except.error "ValidationException")
    "done" "ValidationException"
    (by decide) (by decide) (by decide) (by decide)
    (fun k _ => rfl) (by decide) (by decide)

/-! ## Service router (src/src/services/aiServiceRouter.ts)

The router is modelled per logical text operation. Provider operations are
oracles of type `Except String String` (the outcome the adapter call would
produce if invoked: success value or thrown error message). The local
capability probe `checkLocalAIAvailability` (localContentService.ts lines
324-357) is modelled by its deterministic per-environment result `avail`;
every execution of the probe is counted in `probeCalls`. -/

/-- Which backend serviced the call (`usedService` in ServiceResult); the
constructor `localAI` models the source string value `local`. -/
inductive Service
  | bedrock
  | gemini
  | localAI
deriving DecidableEq

/-- Bedrock credential object fields checked by `tryBedrock` (empty strings are
falsy in the source). -/
structure BedrockCreds where
  accessKeyId : String
  secretAccessKey : String
deriving DecidableEq

/-- AICredentials: the structured apiKeys object built by the router
(`bedrock: apiKeys?.bedrock, gemini: apiKeys?.gemini`); a missing gemini key is
the empty string (falsy). -/
structure AICredentials where
  bedrock : Option BedrockCreds := none
  gemini : String := ""
deriving DecidableEq

/-- Result of `checkLocalAIAvailability` (LocalApiKeys in
localContentService.ts). -/
structure LocalAvail where
  codex : Bool
  claudeCode : Bool
deriving DecidableEq

/-- Environment of one router session: runtime flags, the (fixed) outcome the
capability probe reports in this session, and the four adapter operation
oracles for the logical operation being routed. -/
structure RouterEnv where
  localEnabled : Bool
  isBrowser : Bool
  avail : LocalAvail
  codexOp : Except String String
  claudeOp : Except String String
  bedrockOp : Except String String
  geminiOp : Except String String

/-- Observable outcome of one routed operation: the result (or thrown error
message) with the service that produced it, plus how many times the capability
probe and each adapter operation were executed. -/
structure RouteOutcome where
  result : Except String (String × Service)
  probeCalls : Nat
  bedrockCalls : Nat
  geminiCalls : Nat
  codexCalls : Nat
  claudeCalls : Nat
deriving DecidableEq

/-- `tryBedrock` (aiServiceRouter.ts lines 33-43): throws when the bedrock
credentials are missing (or a field is empty), otherwise invokes the operation
and tags the result with `bedrock`. Returns the thrown-or-ok outcome together
with the number of bedrock operation invocations. -/
def tryBedrock (bedrockOp : Except String String) (credentials : AICredentials) :
    Except String (String × Service) × Nat :=
  match credentials.bedrock with
  | none => (.error "Bedrock credentials not available", 0)
  | some b =>
      if b.accessKeyId = "" ∨ b.secretAccessKey = "" then
        (.error "Bedrock credentials not available", 0)
      else
        match bedrockOp with
        | .ok v => (.ok (v, Service.bedrock), 1)
        | .error e => (.error e, 1)

/-- `fallbackToGemini` (aiServiceRouter.ts lines 45-57): if no gemini key is
configured, throw an error naming the bedrock failure and the unavailable
fallback; otherwise invoke the gemini operation and tag its result — an error
from the gemini operation itself propagates unchanged. -/
def fallbackToGemini (geminiOp : Except String String) (credentials : AICredentials)
    (originalError : String) : Except String (String × Service) × Nat :=
  if credentials.gemini = "" then
    (.error ("Bedrock failed: " ++ originalError ++ ". Gemini fallback not available."), 0)
  else
    match geminiOp with
    | .ok v => (.ok (v, Service.gemini), 1)
    | .error e => (.error e, 1)

/-- The cloud portion of every routed text operation (`try tryBedrock ...
catch error -> fallbackToGemini`, e.g. aiServiceRouter.ts lines 196-207). -/
def cloudRoute (credentials : AICredentials) (bedrockOp geminiOp : Except String String) :
    RouteOutcome :=
  match tryBedrock bedrockOp credentials with
  | (.ok r, bc) => ⟨.ok r, 0, bc, 0, 0, 0⟩
  | (.error e, bc) =>
      match fallbackToGemini geminiOp credentials e with
      | (r, gc) => ⟨r, 0, bc, gc, 0, 0⟩

/-- `generateContent` of the router (aiServiceRouter.ts lines 160-208). In a
non-browser environment with local AI enabled it first runs the capability
probe, preferring codex then claudeCode for content; any local failure falls
through to the cloud path (bedrock primary, gemini fallback). -/
def routeGenerateContent (env : RouterEnv) (credentials : AICredentials) : RouteOutcome :=
  if env.localEnabled && !env.isBrowser then
    if env.avail.codex then
      match env.codexOp with
      | .ok v => ⟨.ok (v, Service.localAI), 1, 0, 0, 1, 0⟩
      | .error _ =>
          let c := cloudRoute credentials env.bedrockOp env.geminiOp
          { c with probeCalls := 1, codexCalls := 1 }
    else if env.avail.claudeCode then
      match env.claudeOp with
      | .ok v => ⟨.ok (v, Service.localAI), 1, 0, 0, 0, 1⟩
      | .error _ =>
          let c := cloudRoute credentials env.bedrockOp env.geminiOp
          { c with probeCalls := 1, claudeCalls := 1 }
    else
      let c := cloudRoute credentials env.bedrockOp env.geminiOp
      { c with probeCalls := 1 }
  else
    cloudRoute credentials env.bedrockOp env.geminiOp

/-- `generateChapterOutline` of the router (aiServiceRouter.ts lines 109-157);
identical routing shape except the local branch prefers claudeCode over codex.
The outline value is abstracted to the same oracle value type. -/
def routeGenerateChapterOutline (env : RouterEnv) (credentials : AICredentials) : RouteOutcome :=
  if env.localEnabled && !env.isBrowser then
    if env.avail.claudeCode then
      match env.claudeOp with
      | .ok v => ⟨.ok (v, Service.localAI), 1, 0, 0, 0, 1⟩
      | .error _ =>
          let c := cloudRoute credentials env.bedrockOp env.geminiOp
          { c with probeCalls := 1, claudeCalls := 1 }
    else if env.avail.codex then
      match env.codexOp with
      | .ok v => ⟨.ok (v, Service.localAI), 1, 0, 0, 1, 0⟩
      | .error _ =>
          let c := cloudRoute credentials env.bedrockOp env.geminiOp
          { c with probeCalls := 1, codexCalls := 1 }
    else
      let c := cloudRoute credentials env.bedrockOp env.geminiOp
      { c with probeCalls := 1 }
  else
    cloudRoute credentials env.bedrockOp env.geminiOp

/-- A routed operation kind within one router session. -/
inductive RoutedOp
  | chapterOutline
  | content
deriving DecidableEq

/-- Total number of capability-probe executions across a sequence of routed
operations in one session: each operation re-enters the router, which holds no
probe cache, so each local-branch entry runs `checkLocalAIAvailability`
afresh. -/
def sessionProbeCalls (env : RouterEnv) (credentials : AICredentials) :
    List RoutedOp → Nat
  | [] => 0
  | op :: rest =>
      (match op with
       | .chapterOutline => (routeGenerateChapterOutline env credentials).probeCalls
       | .content => (routeGenerateContent env credentials).probeCalls) +
        sessionProbeCalls env credentials rest

/-- True when `needle` occurs as a contiguous substring of `hay`; used to state
whether an error message names a provider. -/
def mentionsStr (needle hay : String) : Bool :=
  hay.data.tails.any (fun t => needle.data.isPrefixOf t)

/-- Whether `tryBedrock` considers the bedrock credentials usable (both fields
present and non-empty). -/
def bedrockConfigured (c : AICredentials) : Bool :=
  match c.bedrock with
  | none => false
  | some b => !(b.accessKeyId == "") && !(b.secretAccessKey == "")

/-- Claim C3, counterexample: with both providers configured, when the bedrock
operation fails with `primary boom` and the gemini operation fails with
`secondary boom`, the routed call raises exactly the gemini error unchanged —
a message that does not name Bedrock at all, contradicting the claim that the
error raised to the caller names both providers that were tried. -/
theorem claim_C3_counterexample :
    routeGenerateContent
      ⟨false, true, ⟨false, false⟩, .ok "x", .ok "x",
        .error "primary boom", .error "secondary boom"⟩
      ⟨some ⟨"AK", "SK"⟩, "GK"⟩ =
      ⟨.error "secondary boom", 0, 1, 1, 0, 0⟩ ∧
    mentionsStr "Bedrock" "secondary boom" = false ∧
    mentionsStr "bedrock" "secondary boom" = false := by
  refine ⟨rfl, by decide, by decide⟩

/-- Claim C3, amended: with both providers configured and the primary (bedrock)
operation failing, the router invokes the secondary (gemini) operation exactly
once; if the secondary succeeds its result is returned tagged `gemini`; if the
secondary also fails, the secondary error propagates to the caller unchanged
(the router wraps an error naming both providers only when the gemini key is
absent, which is not this case). -/
theorem claim_C3_fallback_amended
    (env : RouterEnv) (credentials : AICredentials) (e : String)
    (hLocal : env.localEnabled = false ∨ env.isBrowser = true)
    (hB : bedrockConfigured credentials = true)
    (hG : credentials.gemini ≠ "")
    (hFail : env.bedrockOp = .error e) :
    (routeGenerateContent env credentials).geminiCalls = 1 ∧
    (routeGenerateContent env credentials).bedrockCalls = 1 ∧
    (∀ v, env.geminiOp = .ok v →
      (routeGenerateContent env credentials).result = .ok (v, Service.gemini)) ∧
    (∀ g, env.geminiOp = .error g →
      (routeGenerateContent env credentials).result = .error g) := by
  have hcond : (env.localEnabled && !env.isBrowser) = false := by
    rcases hLocal with h | h <;> simp [h]
  obtain ⟨b, hb⟩ : ∃ b, credentials.bedrock = some b := by
    unfold bedrockConfigured at hB
    cases h : credentials.bedrock with
    | none => rw [h] at hB; exact absurd hB (by simp)
    | some b => exact ⟨b, rfl⟩
  have hbc : ¬(b.accessKeyId = "" ∨ b.secretAccessKey = "") := by
    unfold bedrockConfigured at hB
    rw [hb] at hB
    simp only [Bool.and_eq_true, Bool.not_eq_true', beq_eq_false_iff_ne] at hB
    rintro (h | h) <;> simp [h] at hB
  refine ⟨?_, ?_, ?_, ?_⟩
  · cases hg : env.geminiOp <;>
      simp [routeGenerateContent, hcond, cloudRoute, tryBedrock, fallbackToGemini,
        hb, hbc, hFail, hG, hg]
  · cases hg : env.geminiOp <;>
      simp [routeGenerateContent, hcond, cloudRoute, tryBedrock, fallbackToGemini,
        hb, hbc, hFail, hG, hg]
  · intro v hv
    simp [routeGenerateContent, hcond, cloudRoute, tryBedrock, fallbackToGemini,
      hb, hbc, hFail, hG, hv]
  · intro g hg
    simp [routeGenerateContent, hcond, cloudRoute, tryBedrock, fallbackToGemini,
      hb, hbc, hFail, hG, hg]

/-- Claim C3 witness: the amended fallback theorem instantiated at a concrete
cloud environment in which bedrock fails and gemini succeeds. -/
theorem claim_C3_fallback_amended_witness :
    (routeGenerateContent
      ⟨false, true, ⟨false, false⟩, .ok "x", .ok "x", .error "boom", .ok "plan B"⟩
      ⟨some ⟨"AK", "SK"⟩, "GK"⟩).geminiCalls = 1 ∧
    (routeGenerateContent
      ⟨false, true, ⟨false, false⟩, .ok "x", .ok "x", .error "boom", .ok "plan B"⟩
      ⟨some ⟨"AK", "SK"⟩, "GK"⟩).result = .ok ("plan B", Service.gemini) := by
  have h := claim_C3_fallback_amended
    ⟨false, true, ⟨false, false⟩, .ok "x", .ok "x", .error "boom", .ok "plan B"⟩
    ⟨some ⟨"AK", "SK"⟩, "GK"⟩ "boom"
    (Or.inl rfl) (by decide) (by decide) rfl
  exact ⟨h.1, h.2.2.1 "plan B" rfl⟩

/-- Claim C4: in a cloud-routed environment (local AI disabled or browser),
when bedrock credentials are absent or unusable and a gemini key is present,
the routed content operation is serviced by the gemini adapter: the bedrock
operation is never invoked and the result is tagged with service `gemini`. -/
theorem claim_C4_secondary_when_primary_absent
    (env : RouterEnv) (credentials : AICredentials) (v : String)
    (hLocal : env.localEnabled = false ∨ env.isBrowser = true)
    (hB : bedrockConfigured credentials = false)
    (hG : credentials.gemini ≠ "")
    (hOk : env.geminiOp = .ok v) :
    routeGenerateContent env credentials = ⟨.ok (v, Service.gemini), 0, 0, 1, 0, 0⟩ := by
  have hcond : (env.localEnabled && !env.isBrowser) = false := by
    rcases hLocal with h | h <;> simp [h]
  have htry : tryBedrock env.bedrockOp credentials =
      (.error "Bedrock credentials not available", 0) := by
    cases h : credentials.bedrock with
    | none => simp [tryBedrock, h]
    | some b =>
        have hempty : b.accessKeyId = "" ∨ b.secretAccessKey = "" := by
          by_contra hc
          push_neg at hc
          simp [bedrockConfigured, h, hc.1, hc.2] at hB
        simp [tryBedrock, h, hempty]
  simp [routeGenerateContent, hcond, cloudRoute, htry, fallbackToGemini, hG, hOk]

/-- Claim C4 witness: concrete run with no bedrock credentials and a gemini
key; the call is serviced by gemini. -/
theorem claim_C4_secondary_when_primary_absent_witness :
    routeGenerateContent
      ⟨false, true, ⟨false, false⟩, .ok "x", .ok "x", .error "unused", .ok "gem text"⟩
      ⟨none, "GK"⟩ = ⟨.ok ("gem text", Service.gemini), 0, 0, 1, 0, 0⟩ :=
  claim_C4_secondary_when_primary_absent
    ⟨false, true, ⟨false, false⟩, .ok "x", .ok "x", .error "unused", .ok "gem text"⟩
    ⟨none, "GK"⟩ "gem text" (Or.inl rfl) (by decide) (by decide) rfl

/-- Claim C10, counterexample: in a local-enabled non-browser session the
capability probe is re-executed by every routed operation — two consecutive
routed content operations run it twice, contradicting at-most-once per
session. -/
theorem claim_C10_counterexample :
    sessionProbeCalls
      ⟨true, false, ⟨true, true⟩, .ok "x", .ok "x", .ok "x", .ok "x"⟩
      ⟨none, ""⟩ [RoutedOp.content, RoutedOp.content] = 2 ∧
    ¬(sessionProbeCalls
      ⟨true, false, ⟨true, true⟩, .ok "x", .ok "x", .ok "x", .ok "x"⟩
      ⟨none, ""⟩ [RoutedOp.content, RoutedOp.content] ≤ 1) := by
  refine ⟨rfl, by decide⟩

/-- Every routed operation entering the local branch (local AI enabled, not a
browser) executes the capability probe exactly once: there is no cache. -/
theorem routeProbeCalls_local (env : RouterEnv) (credentials : AICredentials)
    (hL : env.localEnabled = true) (hBr : env.isBrowser = false) :
    (routeGenerateContent env credentials).probeCalls = 1 ∧
    (routeGenerateChapterOutline env credentials).probeCalls = 1 := by
  constructor
  · unfold routeGenerateContent
    rw [hL, hBr]
    simp only [Bool.not_false, Bool.and_self, if_true]
    cases hc : env.avail.codex <;> cases hcc : env.avail.claudeCode <;>
      simp [hc, hcc] <;>
      first
        | (cases env.codexOp <;> rfl)
        | (cases env.claudeOp <;> rfl)
  · unfold routeGenerateChapterOutline
    rw [hL, hBr]
    simp only [Bool.not_false, Bool.and_self, if_true]
    cases hc : env.avail.codex <;> cases hcc : env.avail.claudeCode <;>
      simp [hc, hcc] <;>
      first
        | (cases env.codexOp <;> rfl)
        | (cases env.claudeOp <;> rfl)

/-- Claim C10, amended: the router holds no probe cache — in a local-enabled
non-browser session every routed operation re-executes the capability probe,
so a session of n routed operations runs the probe exactly n times; with the
local branch not taken the probe never runs. -/
theorem claim_C10_probe_per_operation_amended
    (env : RouterEnv) (credentials : AICredentials) (ops : List RoutedOp)
    (hL : env.localEnabled = true) (hBr : env.isBrowser = false) :
    sessionProbeCalls env credentials ops = ops.length := by
  induction ops with
  | nil => rfl
  | cons op rest ih =>
      have h := routeProbeCalls_local env credentials hL hBr
      cases op with
      | chapterOutline =>
          show (routeGenerateChapterOutline env credentials).probeCalls +
            sessionProbeCalls env credentials rest = rest.length + 1
          rw [h.2, ih, Nat.add_comm]
      | content =>
          show (routeGenerateContent env credentials).probeCalls +
            sessionProbeCalls env credentials rest = rest.length + 1
          rw [h.1, ih, Nat.add_comm]

/-- Claim C10 witness: a concrete local-mode session of three routed
operations executes the probe three times. -/
theorem claim_C10_probe_per_operation_amended_witness :
    sessionProbeCalls
      ⟨true, false, ⟨false, true⟩, .ok "x", .ok "x", .ok "x", .ok "x"⟩
      ⟨none, ""⟩ [RoutedOp.content, RoutedOp.chapterOutline, RoutedOp.content] = 3 :=
  claim_C10_probe_per_operation_amended
    ⟨true, false, ⟨false, true⟩, .ok "x", .ok "x", .ok "x", .ok "x"⟩
    ⟨none, ""⟩ [RoutedOp.content, RoutedOp.chapterOutline, RoutedOp.content] rfl rfl

/-- Claim C9, counterexample: the Bedrock adapter does NOT consult the
cancellation check after a response is received. With a backend that succeeds
on the first attempt and a check that is false at the first poll but true at
every later moment (in particular immediately after the response arrives), the
call still returns the successful text and has polled the check exactly once —
the claim would require it to fail with a cancellation error at the
post-response poll point. -/
theorem claim_C9_counterexample :
    callClaudeModel (fun _ => .ok "T") (fun k => decide (1 ≤ k)) = ⟨.ok "T", 1, 1, []⟩ ∧
    (fun k => decide (1 ≤ k)) 1 = true :=
  ⟨rfl, rfl⟩

/-- Claim C9, amended: the Bedrock adapter polls the cancellation check exactly
once per attempt, immediately before the attempt (including the first), and a
true answer there fails the call immediately with the cancellation error
regardless of remaining retry budget; there is no post-response poll, so a
successful first attempt returns its text after a single poll even if the
check becomes true afterwards. -/
theorem claim_C9_cancellation_polls_amended
    (backend : Nat → Except String String) (cancel : Nat → Bool) (t : String) :
    (cancel 0 = true →
      callClaudeModel backend cancel = ⟨.error .cancelled, 0, 1, []⟩) ∧
    (cancel 0 = false → backend 0 = .error "ThrottlingException" → cancel 1 = true →
      callClaudeModel backend cancel = ⟨.error .cancelled, 1, 2, [1000]⟩) ∧
    (cancel 0 = false → backend 0 = .ok t → t ≠ "" →
      callClaudeModel backend cancel = ⟨.ok t, 1, 1, []⟩) := by
  refine ⟨?_, ?_, ?_⟩
  · intro hc
    show callClaudeGo backend cancel (3 + 1) 0 [] = _
    rw [callClaudeGo_step, if_pos hc]
  · intro hc0 hb0 hc1
    show callClaudeGo backend cancel (3 + 1) 0 [] = _
    rw [callClaudeGo_step, if_neg (by simp [hc0]), hb0]
    norm_num
    rw [callClaudeGo_step, if_pos hc1]
  · intro hc0 hb0 ht
    show callClaudeGo backend cancel (3 + 1) 0 [] = _
    rw [callClaudeGo_step, if_neg (by simp [hc0]), hb0]
    simp [ht]

/-- Claim C9 witness: the amended poll theorem applied at a concrete backend
and a concrete cancellation sequence that is set from the second poll on. -/
theorem claim_C9_cancellation_polls_amended_witness :
    ((fun k => decide (1 ≤ k)) 0 = false) ∧
    callClaudeModel (fun _ => Except.error "ThrottlingException") (fun k => decide (1 ≤ k)) =
      ⟨.error .cancelled, 1, 2, [1000]⟩ := by
  refine ⟨rfl, ?_⟩
  exact (claim_C9_cancellation_polls_amended
    (fun _ => Except.error "ThrottlingException") (fun k => decide (1 ≤ k)) "x").2.1
    rfl rfl rfl

/-! ## Generation pipeline (src/src/services/contentService.ts, generateAllContent)

The pipeline walks the chapter list of a Book; for each chapter it generates an
outline when `subChapters` is absent, then regenerates every sub-chapter in
order (the source loops over ALL sub-chapters irrespective of their status),
setting the status to `generating`, requesting content, storing it with status
`completed`, and emitting a progress snapshot after every mutation.

Router calls are modelled by oracles describing the value a successful call
returns (`outline` for aiRouter.generateChapterOutline, `content` for
aiRouter.generateContent); the modelled runs are those in which every provider
call that is issued returns successfully. The caller-supplied cancellation
check reads external state; it is modelled as a boolean function of the
observable run state, polled exactly where the source polls `isCancelledFn`
(chapter level and sub-chapter level). Progress snapshots record the value of
the book at the moment `onProgress` is invoked. -/

/-- Observable state of one pipeline run: provider call counts, number of
sub-chapters completed so far, number of cancellation polls made, and the
emitted progress snapshots in order. -/
structure GenState where
  outlineCalls : Nat
  contentCalls : Nat
  sectionsCompleted : Nat
  polls : Nat
  snapshots : List Book
deriving DecidableEq

/-- The initial pipeline state: nothing called, nothing emitted. -/
def GenState.init : GenState := ⟨0, 0, 0, 0, []⟩

/-- Environment of one pipeline run: the outline and content oracles (results
of successful router calls) and the caller-supplied cancellation check as a
function of the observable run state. -/
structure GenEnv where
  outline : String → String → List SubChapter
  content : String → String → String
  cancel : GenState → Bool

/-- One cancellation poll: the answer of the check on the current state, and
the state with the poll recorded. -/
def pollCancel (env : GenEnv) (s : GenState) : Bool × GenState :=
  (env.cancel s, { s with polls := s.polls + 1 })

/-- Record one `onProgress` emission of the book value `b`. -/
def emitProgress (b : Book) (s : GenState) : GenState :=
  { s with snapshots := s.snapshots ++ [b] }

/-- The book value mid-run: chapters already processed, the chapter being
processed, and the chapters still ahead, around the base book. -/
def mkBook (base : Book) (done : List BookChapter) (cur : BookChapter)
    (rest : List BookChapter) : Book :=
  { base with chapters := done ++ cur :: rest }

/-- Errors a pipeline run can raise: the `Generation cancelled` error. -/
inductive GenErr
  | cancelled
deriving DecidableEq

/-- The inner sub-chapter loop of generateAllContent (contentService.ts lines
62-85): for each remaining sub-chapter, poll the cancellation check (throw if
set), set the status to `generating` and emit progress, request content from
the router, store it with status `completed`, and emit progress. `sdone` holds
the sub-chapters of this chapter already processed in this run. -/
def runSections (env : GenEnv) (base : Book) (done : List BookChapter)
    (ch : BookChapter) (rest : List BookChapter) :
    List SubChapter → List SubChapter → GenState →
      Except GenErr (List SubChapter) × GenState
  | sdone, [], s => (.ok sdone, s)
  | sdone, sc :: srem, s =>
      match pollCancel env s with
      | (c, s) =>
        if c then (.error .cancelled, s)
        else
          let scG : SubChapter := { sc with status := Status.generating }
          let s := emitProgress
            (mkBook base done { ch with subChapters := some (sdone ++ scG :: srem) } rest) s
          let text := env.content sc.title sc.description
          let s := { s with contentCalls := s.contentCalls + 1 }
          let scC : SubChapter := { scG with content := some text, status := Status.completed }
          let s := { s with sectionsCompleted := s.sectionsCompleted + 1 }
          let s := emitProgress
            (mkBook base done { ch with subChapters := some (sdone ++ scC :: srem) } rest) s
          runSections env base done ch rest (sdone ++ [scC]) srem s

/-- The chapter loop of generateAllContent (contentService.ts lines 46-89):
poll the cancellation check at chapter level, generate and attach an outline
when the chapter has none (emitting progress), run the sub-chapter loop, then
mark the chapter `completed` and emit progress. -/
def runChapters (env : GenEnv) (base : Book) :
    List BookChapter → List BookChapter → GenState →
      Except GenErr (List BookChapter) × GenState
  | done, [], s => (.ok done, s)
  | done, ch :: rest, s =>
      match pollCancel env s with
      | (c, s) =>
        if c then (.error .cancelled, s)
        else
          match ch.subChapters with
          | none =>
              let subs := env.outline ch.title ch.description
              let s := { s with outlineCalls := s.outlineCalls + 1 }
              let ch : BookChapter := { ch with subChapters := some subs }
              let s := emitProgress (mkBook base done ch rest) s
              match runSections env base done ch rest [] subs s with
              | (.error e, s) => (.error e, s)
              | (.ok newSubs, s) =>
                  let ch : BookChapter :=
                    { ch with subChapters := some newSubs, status := Status.completed }
                  let s := emitProgress (mkBook base done ch rest) s
                  runChapters env base (done ++ [ch]) rest s
          | some subs =>
              match runSections env base done ch rest [] subs s with
              | (.error e, s) => (.error e, s)
              | (.ok newSubs, s) =>
                  let ch : BookChapter :=
                    { ch with subChapters := some newSubs, status := Status.completed }
                  let s := emitProgress (mkBook base done ch rest) s
                  runChapters env base (done ++ [ch]) rest s

/-- generateAllContent (contentService.ts lines 38-92): run the chapter loop
over the book and return the updated book; the book-level status field is
never written by this function. -/
def generateAllContent (env : GenEnv) (book : Book) : Except GenErr Book × GenState :=
  match runChapters env book [] book.chapters GenState.init with
  | (.error e, s) => (.error e, s)
  | (.ok chs, s) => (.ok { book with chapters := chs }, s)

/-- The sub-chapters a chapter contributes to a run: its own when present,
otherwise the outline the oracle returns for it. -/
def secsOf (env : GenEnv) (ch : BookChapter) : List SubChapter :=
  match ch.subChapters with
  | some l => l
  | none => env.outline ch.title ch.description

/-- How one processed sub-chapter looks: content from the content oracle,
status `completed`. -/
def processedSub (env : GenEnv) (sc : SubChapter) : SubChapter :=
  { sc with
    content := some (env.content sc.title sc.description),
    status := Status.completed }

/-- How one processed chapter looks after a complete, uncancelled run: every
sub-chapter of `secsOf` processed, status `completed`. -/
def processedChapter (env : GenEnv) (ch : BookChapter) : BookChapter :=
  { ch with
    subChapters := some ((secsOf env ch).map (processedSub env)),
    status := Status.completed }

/-- The sub-chapter list of a chapter (empty when the outline has not run). -/
def chapterSubsList (ch : BookChapter) : List SubChapter :=
  ch.subChapters.getD []

/-- All sub-chapters of a book, in traversal order. -/
def bookSubs (b : Book) : List SubChapter :=
  (b.chapters.map chapterSubsList).flatten

/-- Number of progress emissions one chapter causes in an uncancelled run:
one per outline attachment, two per sub-chapter, one for chapter
completion. -/
def chapterEmits (env : GenEnv) (ch : BookChapter) : Nat :=
  (match ch.subChapters with | none => 1 | some _ => 0) +
    2 * (secsOf env ch).length + 1

/-- The progress snapshots the sub-chapter loop emits when the cancellation
check never fires (two per sub-chapter, mirroring `runSections`). -/
def secEmits (env : GenEnv) (base : Book) (done : List BookChapter) (ch : BookChapter)
    (rest : List BookChapter) : List SubChapter → List SubChapter → List Book
  | _, [] => []
  | sdone, sc :: srem =>
      let scG : SubChapter := { sc with status := Status.generating }
      let scC : SubChapter := { scG with
        content := some (env.content sc.title sc.description), status := Status.completed }
      mkBook base done { ch with subChapters := some (sdone ++ scG :: srem) } rest ::
        mkBook base done { ch with subChapters := some (sdone ++ scC :: srem) } rest ::
          secEmits env base done ch rest (sdone ++ [scC]) srem

theorem secEmits_length (env : GenEnv) (base : Book) (done : List BookChapter)
    (ch : BookChapter) (rest : List BookChapter) :
    ∀ (srem sdone : List SubChapter),
      (secEmits env base done ch rest sdone srem).length = 2 * srem.length := by
  intro srem
  induction srem with
  | nil => intro sdone; rfl
  | cons sc srem ih =>
      intro sdone
      simp only [secEmits, List.length_cons, ih]
      omega

theorem runSections_noCancel (env : GenEnv) (hnc : ∀ s, env.cancel s = false)
    (base : Book) (done : List BookChapter) (ch : BookChapter) (rest : List BookChapter) :
    ∀ (srem sdone : List SubChapter) (s : GenState),
      runSections env base done ch rest sdone srem s =
        (.ok (sdone ++ srem.map (processedSub env)),
         ⟨s.outlineCalls, s.contentCalls + srem.length,
          s.sectionsCompleted + srem.length, s.polls + srem.length,
          s.snapshots ++ secEmits env base done ch rest sdone srem⟩) := by
  intro srem
  induction srem with
  | nil => intro sdone s; simp [runSections, secEmits]
  | cons sc srem ih =>
      intro sdone s
      rw [runSections]
      simp only [pollCancel, hnc, if_false, Bool.false_eq_true, emitProgress]
      rw [ih]
      simp [secEmits, processedSub, List.append_assoc, Prod.mk.injEq, GenState.mk.injEq,
        List.length_cons]
      omega

/-- The progress snapshots the chapter loop emits when the cancellation check
never fires (mirroring `runChapters`: one per outline attachment, the section
emissions, one per chapter completion). -/
def chapEmitsList (env : GenEnv) (base : Book) :
    List BookChapter → List BookChapter → List Book
  | _, [] => []
  | done, ch :: rest =>
      match ch.subChapters with
      | none =>
          let subs := env.outline ch.title ch.description
          let chO : BookChapter := { ch with subChapters := some subs }
          let chC : BookChapter := { chO with
            subChapters := some (subs.map (processedSub env)), status := Status.completed }
          mkBook base done chO rest ::
            (secEmits env base done chO rest [] subs ++
              (mkBook base done chC rest :: chapEmitsList env base (done ++ [chC]) rest))
      | some subs =>
          let chC : BookChapter := { ch with
            subChapters := some (subs.map (processedSub env)), status := Status.completed }
          secEmits env base done ch rest [] subs ++
            (mkBook base done chC rest :: chapEmitsList env base (done ++ [chC]) rest)

theorem runChapters_noCancel (env : GenEnv) (hnc : ∀ s, env.cancel s = false) (base : Book) :
    ∀ (chs done : List BookChapter) (s : GenState),
      runChapters env base done chs s =
        (.ok (done ++ chs.map (processedChapter env)),
         ⟨s.outlineCalls + chs.countP (fun ch => ch.subChapters.isNone),
          s.contentCalls + (chs.map (fun ch => (secsOf env ch).length)).sum,
          s.sectionsCompleted + (chs.map (fun ch => (secsOf env ch).length)).sum,
          s.polls + chs.length + (chs.map (fun ch => (secsOf env ch).length)).sum,
          s.snapshots ++ chapEmitsList env base done chs⟩) := by
  intro chs
  induction chs with
  | nil => intro done s; simp [runChapters, chapEmitsList]
  | cons ch rest ih =>
      intro done s
      rw [runChapters]
      simp only [pollCancel, hnc, if_false, Bool.false_eq_true, emitProgress]
      cases hsub : ch.subChapters with
      | none =>
          simp only []
          rw [runSections_noCancel env hnc]
          simp only [List.nil_append]
          rw [ih]
          simp [chapEmitsList, hsub, processedChapter, secsOf, List.append_assoc,
            Prod.mk.injEq, GenState.mk.injEq, List.countP_cons, List.length_cons]
          omega
      | some subs =>
          simp only []
          rw [runSections_noCancel env hnc]
          simp only [List.nil_append]
          rw [ih]
          simp [chapEmitsList, hsub, processedChapter, secsOf, List.append_assoc,
            Prod.mk.injEq, GenState.mk.injEq, List.countP_cons, List.length_cons]
          omega

theorem sum_chapterEmits (env : GenEnv) :
    ∀ chs : List BookChapter,
      (chs.map (chapterEmits env)).sum =
        2 * (chs.map (fun ch => (secsOf env ch).length)).sum +
          chs.countP (fun ch => ch.subChapters.isNone) + chs.length := by
  intro chs
  induction chs with
  | nil => rfl
  | cons ch rest ih =>
      cases hsub : ch.subChapters with
      | none =>
          simp [chapterEmits, hsub, List.countP_cons, ih]
          omega
      | some subs =>
          simp [chapterEmits, hsub, List.countP_cons, ih]
          omega

theorem chapEmitsList_length (env : GenEnv) (base : Book) :
    ∀ (chs done : List BookChapter),
      (chapEmitsList env base done chs).length = (chs.map (chapterEmits env)).sum := by
  intro chs
  induction chs with
  | nil => intro done; rfl
  | cons ch rest ih =>
      intro done
      cases hsub : ch.subChapters with
      | none =>
          simp [chapEmitsList, hsub, chapterEmits, secEmits_length, secsOf, ih]
          omega
      | some subs =>
          simp [chapEmitsList, hsub, chapterEmits, secEmits_length, secsOf, ih]
          omega

/-- Claim C7, counterexample: a book whose status is `draft` with one chapter
holding one pending section runs to completion without error or cancellation,
yet the returned Book still has overall status `draft` — generateAllContent
never writes the book-level status, contradicting the claim that the returned
Book's overall status is `completed`. -/
theorem claim_C7_counterexample :
    Except.map Book.status
      (generateAllContent
        ⟨fun _ _ => [], fun _ _ => "body", fun _ => false⟩
        { id := "b"
          title := "T"
          description := "d"
          genre := "g"
          tone := "t"
          status := BookStatus.draft
          chapters := [{ id := "c1"
                         title := "C1"
                         description := "c1d"
                         subChapters := some [{ id := "s1"
                                                title := "S1"
                                                description := "s1d"
                                                status := Status.pending }]
                         status := Status.pending }] }).1 = .ok BookStatus.draft ∧
    BookStatus.draft ≠ BookStatus.completed := by
  exact ⟨by decide, by decide⟩

/-- Claim C7, amended: for every Book with at least one chapter, when
generateAllContent runs with a never-firing cancellation check and a content
oracle that never returns empty text, the run succeeds; every sub-chapter of
the returned Book has status `completed` and non-empty content, every chapter
has status `completed`, onProgress is invoked at least once per section plus
once per chapter-outline attachment (exactly twice per section, once per
outline attachment and once per chapter completion), but the returned Book's
overall status equals the input status unchanged — the pipeline never writes
the book-level status field. -/
theorem claim_C7_generate_all_amended
    (env : GenEnv) (book : Book)
    (hnc : ∀ s, env.cancel s = false)
    (hne : book.chapters ≠ [])
    (hcontent : ∀ t d, env.content t d ≠ "") :
    (generateAllContent env book).1 =
      .ok { book with chapters := book.chapters.map (processedChapter env) } ∧
    (∀ ch ∈ book.chapters.map (processedChapter env),
      ch.status = Status.completed ∧
      ∀ sc ∈ chapterSubsList ch,
        sc.status = Status.completed ∧ ∃ t, sc.content = some t ∧ t ≠ "") ∧
    ({ book with chapters := book.chapters.map (processedChapter env)} : Book).status
      = book.status ∧
    (generateAllContent env book).2.snapshots.length =
      2 * (book.chapters.map (fun ch => (secsOf env ch).length)).sum +
        book.chapters.countP (fun ch => ch.subChapters.isNone) + book.chapters.length ∧
    (book.chapters.map (fun ch => (secsOf env ch).length)).sum +
        book.chapters.countP (fun ch => ch.subChapters.isNone) ≤
      (generateAllContent env book).2.snapshots.length := by
  have h := runChapters_noCancel env hnc book book.chapters [] GenState.init
  have hgen : generateAllContent env book =
      (.ok { book with chapters := book.chapters.map (processedChapter env) },
       (runChapters env book [] book.chapters GenState.init).2) := by
    unfold generateAllContent
    rw [h]
    simp
  refine ⟨?_, ?_, rfl, ?_, ?_⟩
  · rw [hgen]
  · intro ch hch
    simp only [List.mem_map] at hch
    obtain ⟨ch0, _, rfl⟩ := hch
    refine ⟨rfl, ?_⟩
    intro sc hsc
    simp only [processedChapter, chapterSubsList, Option.getD_some, List.mem_map] at hsc
    obtain ⟨sc0, _, rfl⟩ := hsc
    exact ⟨rfl, env.content sc0.title sc0.description, rfl,
      hcontent sc0.title sc0.description⟩
  · rw [hgen]
    show (runChapters env book [] book.chapters GenState.init).2.snapshots.length = _
    rw [h]
    simp [GenState.init, chapEmitsList_length, sum_chapterEmits]
  · rw [hgen]
    show _ ≤ (runChapters env book [] book.chapters GenState.init).2.snapshots.length
    rw [h]
    simp [GenState.init, chapEmitsList_length, sum_chapterEmits]
    omega

/-- Closed form of an uncancelled generateAllContent run: every chapter
processed, one outline call per chapter lacking sub-chapters, one content call
per section (existing or freshly outlined). -/
theorem generateAllContent_noCancel (env : GenEnv) (book : Book)
    (hnc : ∀ s, env.cancel s = false) :
    generateAllContent env book =
      (.ok { book with chapters := book.chapters.map (processedChapter env) },
       ⟨book.chapters.countP (fun ch => ch.subChapters.isNone),
        (book.chapters.map (fun ch => (secsOf env ch).length)).sum,
        (book.chapters.map (fun ch => (secsOf env ch).length)).sum,
        book.chapters.length + (book.chapters.map (fun ch => (secsOf env ch).length)).sum,
        chapEmitsList env book [] book.chapters⟩) := by
  have h := runChapters_noCancel env hnc book book.chapters [] GenState.init
  unfold generateAllContent
  rw [h]
  simp [GenState.init]

/-- Environment for the C7 witness: outline oracle yields one pending section,
content oracle yields non-empty text, cancellation never fires. -/
def wEnv7 : GenEnv :=
  ⟨fun _ _ => [{ id := "s2", title := "S2", description := "s2d", status := Status.pending }],
   fun _ _ => "body", fun _ => false⟩

/-- Book for the C7 witness: one chapter with a pending section, one chapter
with no sections yet. -/
def wBook7 : Book :=
  { id := "b"
    title := "T"
    description := "d"
    genre := "g"
    tone := "t"
    status := BookStatus.draft
    chapters := [{ id := "c1"
                   title := "C1"
                   description := "c1d"
                   subChapters := some [{ id := "s1"
                                          title := "S1"
                                          description := "s1d"
                                          status := Status.pending }]
                   status := Status.pending },
                 { id := "c2"
                   title := "C2"
                   description := "c2d"
                   status := Status.pending }] }

/-- Claim C7 witness: the amended theorem applied at a concrete two-chapter
book (one chapter outlined, one not). -/
theorem claim_C7_generate_all_amended_witness :
    wBook7.chapters ≠ [] ∧
    ((generateAllContent wEnv7 wBook7).1 =
      .ok { wBook7 with chapters := wBook7.chapters.map (processedChapter wEnv7) } ∧
    (∀ ch ∈ wBook7.chapters.map (processedChapter wEnv7),
      ch.status = Status.completed ∧
      ∀ sc ∈ chapterSubsList ch,
        sc.status = Status.completed ∧ ∃ t, sc.content = some t ∧ t ≠ "") ∧
    ({ wBook7 with chapters := wBook7.chapters.map (processedChapter wEnv7)} : Book).status
      = wBook7.status ∧
    (generateAllContent wEnv7 wBook7).2.snapshots.length =
      2 * (wBook7.chapters.map (fun ch => (secsOf wEnv7 ch).length)).sum +
        wBook7.chapters.countP (fun ch => ch.subChapters.isNone) + wBook7.chapters.length ∧
    (wBook7.chapters.map (fun ch => (secsOf wEnv7 ch).length)).sum +
        wBook7.chapters.countP (fun ch => ch.subChapters.isNone) ≤
      (generateAllContent wEnv7 wBook7).2.snapshots.length) :=
  ⟨by decide,
   claim_C7_generate_all_amended wEnv7 wBook7 (fun _ => rfl) (by decide)
     (fun _ _ => (by decide : ("body" : String) ≠ ""))⟩

/-- Claim C1, counterexample: a book whose first chapter is fully `completed`
(section content `old`) and whose second chapter has no sections. Running
generateAllContent issues 2 content calls — one of them for the completed
chapter's section — and overwrites that section's content from `old` to `new`;
the claim predicted no provider calls for the completed chapter's sections and
an untouched first chapter. -/
theorem claim_C1_counterexample :
    (generateAllContent
      ⟨fun _ _ => [{ id := "s2", title := "S2", description := "s2d",
                     status := Status.pending }],
       fun _ _ => "new", fun _ => false⟩
      { id := "b"
        title := "T"
        description := "d"
        genre := "g"
        tone := "t"
        status := BookStatus.generating
        chapters := [{ id := "c1"
                       title := "C1"
                       description := "c1d"
                       subChapters := some [{ id := "s1"
                                              title := "S1"
                                              description := "s1d"
                                              content := some "old"
                                              status := Status.completed }]
                       status := Status.completed },
                     { id := "c2"
                       title := "C2"
                       description := "c2d"
                       status := Status.pending }] }).2.contentCalls = 2 ∧
    Except.map (fun b => b.chapters.map (fun ch => (chapterSubsList ch).map SubChapter.content))
      (generateAllContent
        ⟨fun _ _ => [{ id := "s2", title := "S2", description := "s2d",
                       status := Status.pending }],
         fun _ _ => "new", fun _ => false⟩
        { id := "b"
          title := "T"
          description := "d"
          genre := "g"
          tone := "t"
          status := BookStatus.generating
          chapters := [{ id := "c1"
                         title := "C1"
                         description := "c1d"
                         subChapters := some [{ id := "s1"
                                                title := "S1"
                                                description := "s1d"
                                                content := some "old"
                                                status := Status.completed }]
                         status := Status.completed },
                       { id := "c2"
                         title := "C2"
                         description := "c2d"
                         status := Status.pending }] }).1 =
      .ok [[some "new"], [some "new"]] ∧
    (some "new" : Option String) ≠ some "old" := by
  refine ⟨by decide, by decide, by decide⟩

/-- Claim C1, amended: on a book whose first chapter already has sub-chapters
(all `completed`) and whose second chapter has none, an uncancelled
generateAllContent run issues exactly one outline call (for the outline-less
chapter only: the completed chapter's outline is kept) but issues a content
call for every section of both chapters — the completed chapter's sections are
re-generated and overwritten rather than skipped — and the second chapter
receives the freshly generated outline with generated content. -/
theorem claim_C1_resume_amended
    (env : GenEnv) (book : Book) (ch1 ch2 : BookChapter) (l : List SubChapter)
    (hnc : ∀ s, env.cancel s = false)
    (hbook : book.chapters = [ch1, ch2])
    (h1 : ch1.subChapters = some l)
    (hdone : ∀ sc ∈ l, sc.status = Status.completed)
    (h2 : ch2.subChapters = none) :
    (generateAllContent env book).1 =
      .ok { book with chapters := [processedChapter env ch1, processedChapter env ch2] } ∧
    (generateAllContent env book).2.outlineCalls = 1 ∧
    (generateAllContent env book).2.contentCalls =
      l.length + (env.outline ch2.title ch2.description).length ∧
    (processedChapter env ch1).subChapters = some (l.map (processedSub env)) ∧
    (processedChapter env ch2).subChapters =
      some ((env.outline ch2.title ch2.description).map (processedSub env)) := by
  have hg := generateAllContent_noCancel env book hnc
  refine ⟨?_, ?_, ?_, ?_, ?_⟩
  · rw [hg]
    simp [hbook]
  · rw [hg]
    simp [hbook, List.countP_cons, h1, h2]
  · rw [hg]
    simp [hbook, secsOf, h1, h2]
  · simp [processedChapter, secsOf, h1]
  · simp [processedChapter, secsOf, h2]

/-- Environment for the C1 witness run. -/
def wEnvC1 : GenEnv :=
  ⟨fun _ _ => [{ id := "s2", title := "S2", description := "s2d", status := Status.pending }],
   fun _ _ => "new", fun _ => false⟩

/-- The completed section list of the C1 witness book's first chapter. -/
def wL1 : List SubChapter :=
  [{ id := "s1", title := "S1", description := "s1d", content := some "old",
     status := Status.completed }]

/-- First chapter of the C1 witness book: fully completed. -/
def wCh1 : BookChapter :=
  { id := "c1", title := "C1", description := "c1d", subChapters := some wL1,
    status := Status.completed }

/-- Second chapter of the C1 witness book: no sections yet. -/
def wCh2 : BookChapter :=
  { id := "c2", title := "C2", description := "c2d", status := Status.pending }

/-- Book for the C1 witness run. -/
def wBookC1 : Book :=
  { id := "b"
    title := "T"
    description := "d"
    genre := "g"
    tone := "t"
    status := BookStatus.generating
    chapters := [wCh1, wCh2] }

/-- Claim C1 witness: the amended theorem applied at a concrete book with a
completed first chapter and an outline-less second chapter. -/
theorem claim_C1_resume_amended_witness :
    (∀ sc ∈ wL1, SubChapter.status sc = Status.completed) ∧
    (generateAllContent wEnvC1 wBookC1).2.outlineCalls = 1 ∧
    (generateAllContent wEnvC1 wBookC1).2.contentCalls =
      wL1.length + (wEnvC1.outline wCh2.title wCh2.description).length := by
  have h := claim_C1_resume_amended wEnvC1 wBookC1 wCh1 wCh2 wL1
    (fun _ => rfl) rfl rfl (by decide) rfl
  exact ⟨by decide, h.2.1, h.2.2.1⟩

/-! ## Heat-level conversion (src/src/services/contentService.ts,
convertRomanceHeatLevel, lines 150-252)

The uuid generator is modelled as a supply `uuid : Nat → String`; calls consume
indices in source evaluation order (book id first, then per chapter the
chapter id followed by its sub-chapter ids). The intensity-aware content
operation is an oracle `hc : title → description → text` (heat level and
perspective are fixed for the whole run). The contentService variant of this
function takes no cancellation check. -/

/-- The `heatLevelLabels` lookup table; absent keys yield none (the source
template then prints `undefined`). -/
def heatLevelLabels : String → Option String
  | "clean" => some "Clean"
  | "sweet" => some "Sweet"
  | "sensual" => some "Sensual"
  | "steamy" => some "Steamy"
  | "spicy" => some "Spicy"
  | "explicit" => some "Explicit"
  | _ => none

/-- Clone of a chapter's sub-chapter list: fresh id from the supply, status
reset to `pending`, content cleared; threads the uuid counter. -/
def convertSubs (uuid : Nat → String) : List SubChapter → Nat → List SubChapter × Nat
  | [], n => ([], n)
  | sc :: rest, n =>
      let sc' : SubChapter := { sc with id := uuid n, status := Status.pending, content := none }
      let (rest', n') := convertSubs uuid rest (n + 1)
      (sc' :: rest', n')

/-- Clone of the chapter list: per chapter a fresh id, status `pending`, and
cloned sub-chapters (a chapter without sub-chapters stays without). -/
def convertChapters (uuid : Nat → String) : List BookChapter → Nat → List BookChapter × Nat
  | [], n => ([], n)
  | ch :: rest, n =>
      let newId := uuid n
      let (subs', n') :=
        match ch.subChapters with
        | none => ((none : Option (List SubChapter)), n + 1)
        | some subs =>
            let (l, m) := convertSubs uuid subs (n + 1)
            (some l, m)
      let ch' : BookChapter := { ch with
        id := newId
        status := Status.pending
        subChapters := subs' }
      let (rest', n'') := convertChapters uuid rest n'
      (ch' :: rest', n'')

/-- The derived book skeleton built at the top of convertRomanceHeatLevel:
fresh book id (`uuid 0`), title suffixed with the new level's label, heat
level replaced, status `generating`, chapters cloned with fresh identities. -/
def convertSkeleton (uuid : Nat → String) (originalBook : Book) (newHeatLevel : String) : Book :=
  { originalBook with
    id := uuid 0,
    title := originalBook.title ++ " - " ++
      ((heatLevelLabels newHeatLevel).getD "undefined") ++ " Version",
    heatLevel := some newHeatLevel,
    status := BookStatus.generating,
    chapters := (convertChapters uuid originalBook.chapters 1).1 }

/-- A sub-chapter after the conversion loop regenerated it. -/
def convProcessedSub (hc : String → String → String) (sc : SubChapter) : SubChapter :=
  { sc with content := some (hc sc.title sc.description), status := Status.completed }

/-- A chapter after the conversion loop: regenerated sub-chapters when
present, status `completed`. -/
def convProcessedChapter (hc : String → String → String) (ch : BookChapter) : BookChapter :=
  match ch.subChapters with
  | some subs => { ch with
      subChapters := some (subs.map (convProcessedSub hc))
      status := Status.completed }
  | none => { ch with status := Status.completed }

/-- The per-section regeneration loop of convertRomanceHeatLevel (no
cancellation check in the contentService variant): set `generating`, emit,
generate intensity-aware content, set `completed`, emit. -/
def convRunSections (hc : String → String → String) (base : Book)
    (done : List BookChapter) (ch : BookChapter) (rest : List BookChapter) :
    List SubChapter → List SubChapter → List Book → List SubChapter × List Book
  | sdone, [], snaps => (sdone, snaps)
  | sdone, sc :: srem, snaps =>
      let scG : SubChapter := { sc with status := Status.generating }
      let snaps := snaps ++
        [mkBook base done { ch with subChapters := some (sdone ++ scG :: srem) } rest]
      let scC : SubChapter := { scG with
        content := some (hc sc.title sc.description)
        status := Status.completed }
      let snaps := snaps ++
        [mkBook base done { ch with subChapters := some (sdone ++ scC :: srem) } rest]
      convRunSections hc base done ch rest (sdone ++ [scC]) srem snaps

/-- The per-chapter regeneration loop of convertRomanceHeatLevel. -/
def convRunChapters (hc : String → String → String) (base : Book) :
    List BookChapter → List BookChapter → List Book → List BookChapter × List Book
  | done, [], snaps => (done, snaps)
  | done, ch :: rest, snaps =>
      match ch.subChapters with
      | some subs =>
          match convRunSections hc base done ch rest [] subs snaps with
          | (newSubs, snaps) =>
              let ch' : BookChapter := { ch with
                subChapters := some newSubs
                status := Status.completed }
              convRunChapters hc base (done ++ [ch']) rest
                (snaps ++ [mkBook base done ch' rest])
      | none =>
          let ch' : BookChapter := { ch with status := Status.completed }
          convRunChapters hc base (done ++ [ch']) rest
            (snaps ++ [mkBook base done ch' rest])

/-- convertRomanceHeatLevel (contentService.ts lines 150-252): build the
fresh-identity skeleton, emit it, regenerate every cloned section with the
intensity-aware content operation, and finally mark the derived book
`completed`. Returns the derived book and the emitted snapshots. -/
def convertRomanceHeatLevel (uuid : Nat → String) (hc : String → String → String)
    (originalBook : Book) (newHeatLevel : String) : Book × List Book :=
  let newBook := convertSkeleton uuid originalBook newHeatLevel
  match convRunChapters hc newBook [] newBook.chapters [newBook] with
  | (chs, snaps) =>
      ({ newBook with chapters := chs, status := BookStatus.completed }, snaps)

/-- All identities a book carries: the book id, every chapter id and every
sub-chapter id. -/
def bookIds (b : Book) : List String :=
  b.id :: (b.chapters.map BookChapter.id ++
    (b.chapters.map (fun ch => (chapterSubsList ch).map SubChapter.id)).flatten)

theorem chapId_mem_bookIds (b : Book) (ch : BookChapter) (h : ch ∈ b.chapters) :
    ch.id ∈ bookIds b := by
  simp only [bookIds, List.mem_cons, List.mem_append, List.mem_map]
  exact Or.inr (Or.inl ⟨ch, h, rfl⟩)

theorem subId_mem_bookIds (b : Book) (ch : BookChapter) (sc : SubChapter)
    (hch : ch ∈ b.chapters) (hsc : sc ∈ chapterSubsList ch) :
    sc.id ∈ bookIds b := by
  simp only [bookIds, List.mem_cons, List.mem_append, List.mem_flatten, List.mem_map]
  exact Or.inr (Or.inr ⟨(chapterSubsList ch).map SubChapter.id, ⟨ch, hch, rfl⟩,
    List.mem_map.mpr ⟨sc, hsc, rfl⟩⟩)

theorem convertSubs_spec (uuid : Nat → String) :
    ∀ (subs : List SubChapter) (n : Nat),
      List.Forall₂
        (fun (so sc : SubChapter) =>
          (∃ m, sc.id = uuid m) ∧ sc.status = Status.pending ∧ sc.content = none)
        subs (convertSubs uuid subs n).1 := by
  intro subs
  induction subs with
  | nil => intro n; exact List.Forall₂.nil
  | cons sc rest ih =>
      intro n
      simp only [convertSubs]
      exact List.Forall₂.cons ⟨⟨n, rfl⟩, rfl, rfl⟩ (ih (n + 1))

theorem convertChapters_spec (uuid : Nat → String) :
    ∀ (chs : List BookChapter) (n : Nat),
      List.Forall₂
        (fun (o c : BookChapter) =>
          (∃ m, c.id = uuid m) ∧ c.status = Status.pending ∧
          List.Forall₂
            (fun (so sc : SubChapter) =>
              (∃ m, sc.id = uuid m) ∧ sc.status = Status.pending ∧ sc.content = none)
            (chapterSubsList o) (chapterSubsList c))
        chs (convertChapters uuid chs n).1 := by
  intro chs
  induction chs with
  | nil => intro n; exact List.Forall₂.nil
  | cons ch rest ih =>
      intro n
      cases hsub : ch.subChapters with
      | none =>
          simp only [convertChapters, hsub]
          refine List.Forall₂.cons ⟨⟨n, rfl⟩, rfl, ?_⟩ (ih (n + 1))
          simp [chapterSubsList, hsub]
      | some subs =>
          simp only [convertChapters, hsub]
          refine List.Forall₂.cons ⟨⟨n, rfl⟩, rfl, ?_⟩ (ih _)
          simpa [chapterSubsList, hsub] using convertSubs_spec uuid subs (n + 1)

/-- The snapshots the conversion section loop emits (two per section). -/
def convSecEmits (hc : String → String → String) (base : Book) (done : List BookChapter)
    (ch : BookChapter) (rest : List BookChapter) :
    List SubChapter → List SubChapter → List Book
  | _, [] => []
  | sdone, sc :: srem =>
      let scG : SubChapter := { sc with status := Status.generating }
      let scC : SubChapter := { scG with
        content := some (hc sc.title sc.description)
        status := Status.completed }
      mkBook base done { ch with subChapters := some (sdone ++ scG :: srem) } rest ::
        mkBook base done { ch with subChapters := some (sdone ++ scC :: srem) } rest ::
          convSecEmits hc base done ch rest (sdone ++ [scC]) srem

theorem convRunSections_closed (hc : String → String → String) (base : Book)
    (done : List BookChapter) (ch : BookChapter) (rest : List BookChapter) :
    ∀ (srem sdone : List SubChapter) (snaps : List Book),
      convRunSections hc base done ch rest sdone srem snaps =
        (sdone ++ srem.map (convProcessedSub hc),
         snaps ++ convSecEmits hc base done ch rest sdone srem) := by
  intro srem
  induction srem with
  | nil => intro sdone snaps; simp [convRunSections, convSecEmits]
  | cons sc srem ih =>
      intro sdone snaps
      rw [convRunSections]
      simp only []
      rw [ih]
      simp [convSecEmits, convProcessedSub, List.append_assoc]

/-- The snapshots the conversion chapter loop emits. -/
def convChapEmits (hc : String → String → String) (base : Book) :
    List BookChapter → List BookChapter → List Book
  | _, [] => []
  | done, ch :: rest =>
      match ch.subChapters with
      | some subs =>
          let ch' : BookChapter := { ch with
            subChapters := some (subs.map (convProcessedSub hc))
            status := Status.completed }
          convSecEmits hc base done ch rest [] subs ++
            (mkBook base done ch' rest :: convChapEmits hc base (done ++ [ch']) rest)
      | none =>
          let ch' : BookChapter := { ch with status := Status.completed }
          mkBook base done ch' rest :: convChapEmits hc base (done ++ [ch']) rest

theorem convRunChapters_closed (hc : String → String → String) (base : Book) :
    ∀ (chs done : List BookChapter) (snaps : List Book),
      convRunChapters hc base done chs snaps =
        (done ++ chs.map (convProcessedChapter hc),
         snaps ++ convChapEmits hc base done chs) := by
  intro chs
  induction chs with
  | nil => intro done snaps; simp [convRunChapters, convChapEmits]
  | cons ch rest ih =>
      intro done snaps
      rw [convRunChapters]
      cases hsub : ch.subChapters with
      | none =>
          simp only []
          rw [ih]
          simp [convChapEmits, hsub, convProcessedChapter, List.append_assoc]
      | some subs =>
          simp only []
          rw [convRunSections_closed hc base done ch rest subs []]
          simp only [List.nil_append]
          rw [ih]
          simp [convChapEmits, hsub, convProcessedChapter, List.append_assoc]

theorem convProcessedChapter_id (hc : String → String → String) (ch : BookChapter) :
    (convProcessedChapter hc ch).id = ch.id := by
  cases hsub : ch.subChapters <;> simp [convProcessedChapter, hsub]

theorem chapterSubsList_convProcessed (hc : String → String → String) (ch : BookChapter) :
    chapterSubsList (convProcessedChapter hc ch) =
      (chapterSubsList ch).map (convProcessedSub hc) := by
  cases hsub : ch.subChapters <;> simp [convProcessedChapter, chapterSubsList, hsub]

theorem forall₂_mono_mem {α β : Type} {R S : α → β → Prop} :
    ∀ {l₁ : List α} {l₂ : List β}, List.Forall₂ R l₁ l₂ →
      (∀ a ∈ l₁, ∀ b ∈ l₂, R a b → S a b) → List.Forall₂ S l₁ l₂ := by
  intro l₁ l₂ h
  induction h with
  | nil => intro; exact .nil
  | @cons a b l₁ l₂ hr hrest ih =>
      intro himp
      exact .cons (himp a (List.mem_cons_self a l₁) b (List.mem_cons_self b l₂) hr)
        (ih fun x hx y hy hxy =>
          himp x (List.mem_cons_of_mem a hx) y (List.mem_cons_of_mem b hy) hxy)

theorem forall₂_mem_right {α β : Type} {R : α → β → Prop} :
    ∀ {l₁ : List α} {l₂ : List β}, List.Forall₂ R l₁ l₂ →
      ∀ b ∈ l₂, ∃ a ∈ l₁, R a b := by
  intro l₁ l₂ h
  induction h with
  | nil => intro b hb; cases hb
  | @cons a b l₁ l₂ hr hrest ih =>
      intro c hc
      rcases List.mem_cons.mp hc with hc | hc
      · exact ⟨a, List.mem_cons_self a l₁, hc ▸ hr⟩
      · obtain ⟨x, hx, hxc⟩ := ih c hc
        exact ⟨x, List.mem_cons_of_mem a hx, hxc⟩

/-- Claim C6: convertRomanceHeatLevel returns a derived Book whose id is
freshly minted (differs from the original book id), whose every chapter and
sub-chapter id differs from the corresponding original id, whose first emitted
snapshot is the fresh skeleton in which every sub-chapter has its content
cleared and status reset to `pending` before generation begins, and whose
title is the original title suffixed with the new heat level's label. The
freshness hypothesis states that the uuid supply never collides with an
identity already used by the original book. -/
theorem claim_C6_convert_heat_level
    (uuid : Nat → String) (hc : String → String → String) (book : Book)
    (lvl lbl : String)
    (hfresh : ∀ m, uuid m ∉ bookIds book)
    (hlbl : heatLevelLabels lvl = some lbl) :
    (convertRomanceHeatLevel uuid hc book lvl).1.id ≠ book.id ∧
    (convertRomanceHeatLevel uuid hc book lvl).1.title =
      book.title ++ " - " ++ lbl ++ " Version" ∧
    List.Forall₂
      (fun (o c : BookChapter) =>
        c.id ≠ o.id ∧
        List.Forall₂ (fun (so sc : SubChapter) => sc.id ≠ so.id)
          (chapterSubsList o) (chapterSubsList c))
      book.chapters (convertRomanceHeatLevel uuid hc book lvl).1.chapters ∧
    (convertRomanceHeatLevel uuid hc book lvl).2.head? =
      some (convertSkeleton uuid book lvl) ∧
    (∀ sc ∈ bookSubs (convertSkeleton uuid book lvl),
      sc.status = Status.pending ∧ sc.content = none) := by
  have hconv : convertRomanceHeatLevel uuid hc book lvl =
      ({ convertSkeleton uuid book lvl with
          chapters := (convertSkeleton uuid book lvl).chapters.map (convProcessedChapter hc)
          status := BookStatus.completed },
       convertSkeleton uuid book lvl ::
         convChapEmits hc (convertSkeleton uuid book lvl) []
           (convertSkeleton uuid book lvl).chapters) := by
    unfold convertRomanceHeatLevel
    simp only []
    rw [convRunChapters_closed]
    simp
  have hspec := convertChapters_spec uuid book.chapters 1
  have hbid : book.id ∈ bookIds book := by simp [bookIds]
  refine ⟨?_, ?_, ?_, ?_, ?_⟩
  · rw [hconv]
    show (convertSkeleton uuid book lvl).id ≠ book.id
    simp only [convertSkeleton]
    intro h
    exact hfresh 0 (h ▸ hbid)
  · rw [hconv]
    show (convertSkeleton uuid book lvl).title = _
    simp [convertSkeleton, hlbl]
  · rw [hconv]
    show List.Forall₂ _ book.chapters
      ((convertSkeleton uuid book lvl).chapters.map (convProcessedChapter hc))
    rw [List.forall₂_map_right_iff]
    have hskch : (convertSkeleton uuid book lvl).chapters =
        (convertChapters uuid book.chapters 1).1 := rfl
    rw [hskch]
    refine forall₂_mono_mem hspec ?_
    rintro o ho c _ ⟨⟨m, hm⟩, _, hsubs⟩
    refine ⟨?_, ?_⟩
    · rw [convProcessedChapter_id, hm]
      intro h
      exact hfresh m (h ▸ chapId_mem_bookIds book o ho)
    · rw [chapterSubsList_convProcessed, List.forall₂_map_right_iff]
      refine forall₂_mono_mem hsubs ?_
      rintro so hso sc _ ⟨⟨m2, hm2⟩, _, _⟩
      show (convProcessedSub hc sc).id ≠ so.id
      have : (convProcessedSub hc sc).id = sc.id := rfl
      rw [this, hm2]
      intro h
      exact hfresh m2 (h ▸ subId_mem_bookIds book o so ho hso)
  · rw [hconv]
    rfl
  · intro sc hsc
    simp only [bookSubs, List.mem_flatten, List.mem_map] at hsc
    obtain ⟨l, ⟨c, hc2, rfl⟩, hscl⟩ := hsc
    have hskch : (convertSkeleton uuid book lvl).chapters =
        (convertChapters uuid book.chapters 1).1 := rfl
    rw [hskch] at hc2
    obtain ⟨o, _, ⟨_, _, hsubs⟩⟩ := forall₂_mem_right hspec c hc2
    obtain ⟨so, _, ⟨_, hp, hn⟩⟩ := forall₂_mem_right hsubs sc hscl
    exact ⟨hp, hn⟩

/-- Completed section of the C6 witness book. -/
def wSub6 : SubChapter :=
  { id := "s1", title := "S1", description := "s1d", content := some "x",
    status := Status.completed }

/-- Completed chapter of the C6 witness book. -/
def wCh6 : BookChapter :=
  { id := "c1", title := "C1", description := "c1d", subChapters := some [wSub6],
    status := Status.completed }

/-- Original book for the C6 witness: one completed chapter with one generated
section. -/
def wBook6 : Book :=
  { id := "b"
    title := "T"
    description := "d"
    genre := "Romance"
    tone := "t"
    heatLevel := some "clean"
    status := BookStatus.completed
    chapters := [wCh6] }

/-- Claim C6 witness: the conversion theorem applied at a concrete book with a
uuid supply disjoint from the book's identities and heat level `steamy`. -/
theorem claim_C6_convert_heat_level_witness :
    heatLevelLabels "steamy" = some "Steamy" ∧
    (convertRomanceHeatLevel (fun _ => "fresh") (fun _ _ => "hot") wBook6 "steamy").1.id ≠
      wBook6.id ∧
    (convertRomanceHeatLevel (fun _ => "fresh") (fun _ _ => "hot") wBook6 "steamy").1.title =
      wBook6.title ++ " - " ++ "Steamy" ++ " Version" ∧
    List.Forall₂
      (fun (o c : BookChapter) =>
        c.id ≠ o.id ∧
        List.Forall₂ (fun (so sc : SubChapter) => sc.id ≠ so.id)
          (chapterSubsList o) (chapterSubsList c))
      wBook6.chapters
      (convertRomanceHeatLevel (fun _ => "fresh") (fun _ _ => "hot") wBook6 "steamy").1.chapters ∧
    (∀ sc ∈ bookSubs (convertSkeleton (fun _ => "fresh") wBook6 "steamy"),
      sc.status = Status.pending ∧ sc.content = none) := by
  have h := claim_C6_convert_heat_level (fun _ => "fresh") (fun _ _ => "hot") wBook6
    "steamy" "Steamy"
    (fun _ => (by decide : ("fresh" : String) ∉ bookIds wBook6)) rfl
  exact ⟨rfl, h.1, h.2.1, h.2.2.1, h.2.2.2.2⟩

/-! ## Cancellation after the first completed section (claim C5) -/

/-- The last-emitted snapshot shape the cancellation claim describes: exactly
one sub-chapter `completed`, every other sub-chapter `pending`. -/
def oneCompletedRestPending (b : Book) : Prop :=
  ((bookSubs b).countP (fun sc => sc.status == Status.completed)) = 1 ∧
  ∀ sc ∈ bookSubs b, sc.status = Status.completed ∨ sc.status = Status.pending

theorem flatten_subs_nil {done : List BookChapter}
    (h : ∀ c ∈ done, chapterSubsList c = []) :
    ((done.map chapterSubsList).flatten : List SubChapter) = [] := by
  induction done with
  | nil => rfl
  | cons c rest ih =>
      simp only [List.map_cons, List.flatten_cons, h c (List.mem_cons_self c rest),
        List.nil_append]
      exact ih fun x hx => h x (List.mem_cons_of_mem c hx)

theorem bookSubs_mkBook (base : Book) (done : List BookChapter) (cur : BookChapter)
    (rest : List BookChapter) :
    bookSubs (mkBook base done cur rest) =
      (done.map chapterSubsList).flatten ++
        (chapterSubsList cur ++ (rest.map chapterSubsList).flatten) := by
  simp [bookSubs, mkBook]

theorem countP_completed_of_pending {l : List SubChapter}
    (h : ∀ sc ∈ l, sc.status = Status.pending) :
    l.countP (fun sc => sc.status == Status.completed) = 0 := by
  rw [List.countP_eq_zero]
  intro sc hsc
  simp [h sc hsc]

theorem countP_flatten_of_pending {chs : List BookChapter}
    (h : ∀ c ∈ chs, ∀ x ∈ chapterSubsList c, x.status = Status.pending) :
    ((chs.map chapterSubsList).flatten : List SubChapter).countP
      (fun sc => sc.status == Status.completed) = 0 := by
  rw [List.countP_eq_zero]
  intro sc hsc
  rw [List.mem_flatten] at hsc
  obtain ⟨l, hl, hscl⟩ := hsc
  rw [List.mem_map] at hl
  obtain ⟨c, hc2, rfl⟩ := hl
  simp [h c hc2 sc hscl]

theorem oneCompletedRestPending_mk (base : Book) (done : List BookChapter)
    (cur : BookChapter) (rest : List BookChapter) (X : List SubChapter)
    (hcur : chapterSubsList cur = X)
    (hdone : ∀ c ∈ done, chapterSubsList c = [])
    (hrest : ∀ c ∈ rest, ∀ x ∈ chapterSubsList c, x.status = Status.pending)
    (hX : X.countP (fun sc => sc.status == Status.completed) = 1)
    (hXmem : ∀ sc ∈ X, sc.status = Status.completed ∨ sc.status = Status.pending) :
    oneCompletedRestPending (mkBook base done cur rest) := by
  constructor
  · rw [bookSubs_mkBook, List.countP_append, List.countP_append,
      flatten_subs_nil hdone, hcur, hX, countP_flatten_of_pending hrest]
    simp
  · intro sc hsc
    rw [bookSubs_mkBook] at hsc
    rcases List.mem_append.mp hsc with h1 | h2
    · rw [flatten_subs_nil hdone] at h1
      cases h1
    rcases List.mem_append.mp h2 with h3 | h4
    · exact hXmem sc (hcur ▸ h3)
    · right
      rw [List.mem_flatten] at h4
      obtain ⟨l, hl, hscl⟩ := h4
      rw [List.mem_map] at hl
      obtain ⟨c, hc2, rfl⟩ := hl
      exact hrest c hc2 sc hscl

theorem runChapters_firstSection (env : GenEnv)
    (hcan : ∀ s, env.cancel s = decide (1 ≤ s.sectionsCompleted))
    (base : Book) (done : List BookChapter) (ch : BookChapter)
    (rest : List BookChapter) (sc : SubChapter) (srem : List SubChapter) (s : GenState)
    (hsub : ch.subChapters = some (sc :: srem))
    (hpend : ∀ x ∈ srem, x.status = Status.pending)
    (hdone : ∀ c ∈ done, chapterSubsList c = [])
    (hrest : ∀ c ∈ rest, ∀ x ∈ chapterSubsList c, x.status = Status.pending)
    (hs0 : s.sectionsCompleted = 0) (hc0 : s.contentCalls = 0)
    (hmore : srem ≠ [] ∨ rest ≠ []) :
    ∃ s', runChapters env base done (ch :: rest) s = (.error .cancelled, s') ∧
      s'.contentCalls = 1 ∧
      ∃ b, s'.snapshots.getLast? = some b ∧ oneCompletedRestPending b := by
  cases srem with
  | cons x xs =>
      rw [runChapters]
      simp only [pollCancel, hcan, hs0, emitProgress, hsub]
      simp only [runSections, pollCancel, hcan, emitProgress]
      simp [hs0, hc0, List.append_assoc]
      refine oneCompletedRestPending_mk base done _ rest
        ({ sc with
            content := some (env.content sc.title sc.description)
            status := Status.completed } :: x :: xs)
        (by simp [chapterSubsList]) hdone hrest ?_ ?_
      · rw [List.countP_cons, List.countP_cons,
          countP_completed_of_pending fun y hy => hpend y (List.mem_cons_of_mem x hy)]
        simp [hpend x (List.mem_cons_self x xs)]
      · intro y hy
        rcases List.mem_cons.mp hy with rfl | hy2
        · left; rfl
        · right; exact hpend y hy2
  | nil =>
      have hrestne : rest ≠ [] := by
        rcases hmore with h | h
        · exact absurd rfl h
        · exact h
      cases rest with
      | nil => exact absurd rfl hrestne
      | cons ch2 rest2 =>
          rw [runChapters]
          simp only [pollCancel, hcan, hs0, emitProgress, hsub]
          simp only [runSections, pollCancel, hcan, emitProgress]
          simp [hs0, hc0, List.append_assoc]
          simp only [runChapters, pollCancel, hcan, emitProgress]
          simp [hs0, hc0, List.append_assoc]
          refine oneCompletedRestPending_mk base done _ (ch2 :: rest2)
            [{ sc with
                content := some (env.content sc.title sc.description)
                status := Status.completed }]
            (by simp [chapterSubsList]) hdone hrest ?_ ?_
          · simp [List.countP_cons]
          · intro y hy
            rcases List.mem_cons.mp hy with rfl | hy2
            · left; rfl
            · cases hy2

theorem runChapters_cancelAfterFirst (env : GenEnv)
    (hcan : ∀ s, env.cancel s = decide (1 ≤ s.sectionsCompleted)) (base : Book) :
    ∀ (chs done : List BookChapter) (s : GenState),
      (∀ c ∈ chs, c.subChapters.isSome = true ∧
        ∀ x ∈ chapterSubsList c, x.status = Status.pending) →
      (∀ c ∈ done, chapterSubsList c = []) →
      2 ≤ (chs.map (fun c => (chapterSubsList c).length)).sum →
      s.sectionsCompleted = 0 → s.contentCalls = 0 →
      ∃ s', runChapters env base done chs s = (.error .cancelled, s') ∧
        s'.contentCalls = 1 ∧
        ∃ b, s'.snapshots.getLast? = some b ∧ oneCompletedRestPending b := by
  intro chs
  induction chs with
  | nil =>
      intro done s _ _ hsum _ _
      simp at hsum
  | cons ch rest ih =>
      intro done s hch hdone hsum hs0 hc0
      obtain ⟨hsome, hpend⟩ := hch ch (List.mem_cons_self ch rest)
      obtain ⟨l, hsub⟩ := Option.isSome_iff_exists.mp hsome
      cases l with
      | nil =>
          rw [runChapters]
          simp only [pollCancel, hcan, hs0, emitProgress, hsub]
          simp only [runSections]
          simp [hs0]
          apply ih
          · exact fun c hc2 => hch c (List.mem_cons_of_mem ch hc2)
          · intro c hc2
            rcases List.mem_append.mp hc2 with h | h
            · exact hdone c h
            · rcases List.mem_cons.mp h with rfl | h2
              · simp [chapterSubsList]
              · cases h2
          · have : (chapterSubsList ch).length = 0 := by
              simp [chapterSubsList, hsub]
            simp only [List.map_cons, List.sum_cons, this, Nat.zero_add] at hsum
            exact hsum
          · simp [hs0]
          · simp [hc0]
      | cons sc srem =>
          have hmore : srem ≠ [] ∨ rest ≠ [] := by
            by_contra hcon
            push_neg at hcon
            obtain ⟨h1, h2⟩ := hcon
            subst h1
            subst h2
            simp [chapterSubsList, hsub] at hsum
          exact runChapters_firstSection env hcan base done ch rest sc srem s hsub
            (fun x hx => hpend x (by simp [chapterSubsList, hsub, hx]))
            hdone
            (fun c hc2 => (hch c (List.mem_cons_of_mem ch hc2)).2)
            hs0 hc0 hmore

/-- Claim C5: running generateAllContent on a book whose chapters all have
sub-chapter lists with every section `pending` and at least two sections in
total, with a cancellation check that is false until the first section
completes and true afterwards (it reads the number of completed sections), the
run aborts with the cancellation error after exactly one content call — before
any content request for a second section — and the last-emitted snapshot has
exactly one sub-chapter `completed` with every other sub-chapter `pending`. -/
theorem claim_C5_cancel_after_first_section (env : GenEnv) (book : Book)
    (hcan : ∀ s, env.cancel s = decide (1 ≤ s.sectionsCompleted))
    (hch : ∀ c ∈ book.chapters, c.subChapters.isSome = true ∧
      ∀ x ∈ chapterSubsList c, x.status = Status.pending)
    (hsum : 2 ≤ (book.chapters.map (fun c => (chapterSubsList c).length)).sum) :
    ∃ s', generateAllContent env book = (.error .cancelled, s') ∧
      s'.contentCalls = 1 ∧
      ∃ b, s'.snapshots.getLast? = some b ∧ oneCompletedRestPending b := by
  obtain ⟨s', hrun, hcalls, hb⟩ := runChapters_cancelAfterFirst env hcan book
    book.chapters [] GenState.init hch (fun c hc2 => absurd hc2 (List.not_mem_nil c))
    hsum rfl rfl
  refine ⟨s', ?_, hcalls, hb⟩
  unfold generateAllContent
  rw [hrun]

/-- Environment for the C5 witness: content oracle `body`, cancellation check
that fires once one section has completed. -/
def wEnv5 : GenEnv :=
  ⟨fun _ _ => [], fun _ _ => "body", fun s => decide (1 ≤ s.sectionsCompleted)⟩

/-- First pending section of the C5 witness book. -/
def wS51 : SubChapter :=
  { id := "s1", title := "S1", description := "s1d", status := Status.pending }

/-- Second pending section of the C5 witness book. -/
def wS52 : SubChapter :=
  { id := "s2", title := "S2", description := "s2d", status := Status.pending }

/-- Book for the C5 witness: one chapter with two pending sections. -/
def wBook5 : Book :=
  { id := "b"
    title := "T"
    description := "d"
    genre := "g"
    tone := "t"
    status := BookStatus.generating
    chapters := [{ id := "c1", title := "C1", description := "c1d",
                   subChapters := some [wS51, wS52], status := Status.pending }] }

/-- Claim C5 witness: the cancellation theorem applied at a concrete book with
two pending sections. -/
theorem claim_C5_cancel_after_first_section_witness :
    2 ≤ (wBook5.chapters.map (fun c => (chapterSubsList c).length)).sum ∧
    ∃ s', generateAllContent wEnv5 wBook5 = (.error .cancelled, s') ∧
      s'.contentCalls = 1 ∧
      ∃ b, s'.snapshots.getLast? = some b ∧ oneCompletedRestPending b :=
  ⟨by decide,
   claim_C5_cancel_after_first_section wEnv5 wBook5 (fun _ => rfl)
     (by decide) (by decide)⟩

/-! ## Snapshot consistency (claim C8)

The claim speaks of nodes of the chapter/sub-chapter tree changing state
between consecutive onProgress emissions. A sub-chapter node changes when any
of its fields change; a chapter node changes when its own fields (identity,
status, presence of a sub-chapter list) change. `bookDiff` counts changed
nodes between two book values with identical tree shape (the pipeline never
reorders or removes chapters; an outline attachment changes the chapter node
itself, the new sub-tree being compared only once both sides carry one). -/

/-- 1 when the sub-chapter node changed, else 0. -/
def subDiff (x y : SubChapter) : Nat := if x = y then 0 else 1

/-- Number of changed sub-chapter nodes between two parallel section lists. -/
def subsDiff (xs ys : List SubChapter) : Nat := (List.zipWith subDiff xs ys).sum

/-- The chapter node's own state: identity, title, description, status and
whether a sub-chapter list is present. -/
def chapOwn (c : BookChapter) : String × String × String × Status × Bool :=
  (c.id, c.title, c.description, c.status, c.subChapters.isSome)

/-- Number of changed nodes in one chapter subtree. -/
def chapDiff (c d : BookChapter) : Nat :=
  (if chapOwn c = chapOwn d then 0 else 1) +
    (match c.subChapters, d.subChapters with
     | some xs, some ys => subsDiff xs ys
     | _, _ => 0)

/-- Number of changed nodes of the chapter/sub-chapter tree between two book
values. -/
def bookDiff (a b : Book) : Nat := (List.zipWith chapDiff a.chapters b.chapters).sum

/-- Number of sub-chapters in state `generating` in a book value. -/
def generatingCount (b : Book) : Nat :=
  (bookSubs b).countP (fun sc => sc.status == Status.generating)

theorem subsDiff_self (l : List SubChapter) : subsDiff l l = 0 := by
  induction l with
  | nil => rfl
  | cons x xs ih => simpa [subsDiff, List.zipWith_cons_cons, subDiff] using ih

theorem chapDiff_self (c : BookChapter) : chapDiff c c = 0 := by
  unfold chapDiff
  rw [if_pos rfl]
  cases c.subChapters <;> simp [subsDiff_self]

theorem zipWith_chapDiff_self (l : List BookChapter) :
    (List.zipWith chapDiff l l).sum = 0 := by
  induction l with
  | nil => rfl
  | cons c cs ih => simp [List.zipWith_cons_cons, chapDiff_self, ih]

theorem bookDiff_mk (base : Book) (done : List BookChapter) (c₁ c₂ : BookChapter)
    (rest : List BookChapter) :
    bookDiff (mkBook base done c₁ rest) (mkBook base done c₂ rest) = chapDiff c₁ c₂ := by
  unfold bookDiff mkBook
  simp only []
  rw [List.zipWith_append _ _ _ _ _ rfl, List.zipWith_cons_cons, List.sum_append,
    List.sum_cons, zipWith_chapDiff_self, zipWith_chapDiff_self]
  omega

theorem subsDiff_mid (sdone srem : List SubChapter) (x y : SubChapter) :
    subsDiff (sdone ++ x :: srem) (sdone ++ y :: srem) = subDiff x y := by
  unfold subsDiff
  rw [List.zipWith_append _ _ _ _ _ rfl, List.zipWith_cons_cons, List.sum_append,
    List.sum_cons]
  have h1 : (List.zipWith subDiff sdone sdone).sum = 0 := by
    induction sdone with
    | nil => rfl
    | cons a as ih => simp [List.zipWith_cons_cons, subDiff, ih]
  have h2 : (List.zipWith subDiff srem srem).sum = 0 := by
    induction srem with
    | nil => rfl
    | cons a as ih => simp [List.zipWith_cons_cons, subDiff, ih]
  rw [h1, h2]
  omega

theorem countP_status_zero {st : Status} {l : List SubChapter}
    (h : ∀ x ∈ l, x.status ≠ st) :
    l.countP (fun sc => sc.status == st) = 0 := by
  rw [List.countP_eq_zero]
  intro x hx
  simp [h x hx]

theorem countP_status_flatten_zero {st : Status} {chs : List BookChapter}
    (h : ∀ c ∈ chs, ∀ x ∈ chapterSubsList c, x.status ≠ st) :
    ((chs.map chapterSubsList).flatten : List SubChapter).countP
      (fun sc => sc.status == st) = 0 := by
  rw [List.countP_eq_zero]
  intro x hx
  rw [List.mem_flatten] at hx
  obtain ⟨l, hl, hxl⟩ := hx
  rw [List.mem_map] at hl
  obtain ⟨c, hc2, rfl⟩ := hl
  simp [h c hc2 x hxl]

theorem generatingCount_mk (base : Book) (done : List BookChapter)
    (cur : BookChapter) (rest : List BookChapter) (X : List SubChapter)
    (hcur : chapterSubsList cur = X)
    (hdone : ∀ c ∈ done, ∀ x ∈ chapterSubsList c, x.status ≠ Status.generating)
    (hrest : ∀ c ∈ rest, ∀ x ∈ chapterSubsList c, x.status ≠ Status.generating) :
    generatingCount (mkBook base done cur rest) =
      X.countP (fun sc => sc.status == Status.generating) := by
  unfold generatingCount
  rw [bookSubs_mkBook, List.countP_append, List.countP_append, hcur,
    countP_status_flatten_zero hdone, countP_status_flatten_zero hrest]
  omega

theorem runSections_genLe (env : GenEnv) (base : Book) (done : List BookChapter)
    (ch : BookChapter) (rest : List BookChapter)
    (hdone : ∀ c ∈ done, ∀ x ∈ chapterSubsList c, x.status ≠ Status.generating)
    (hrest : ∀ c ∈ rest, ∀ x ∈ chapterSubsList c, x.status ≠ Status.generating) :
    ∀ (srem sdone : List SubChapter) (s : GenState),
      (∀ x ∈ sdone, x.status ≠ Status.generating) →
      (∀ x ∈ srem, x.status ≠ Status.generating) →
      (∀ b ∈ s.snapshots, generatingCount b ≤ 1) →
      (∀ b ∈ (runSections env base done ch rest sdone srem s).2.snapshots,
        generatingCount b ≤ 1) ∧
      (∀ newSubs, (runSections env base done ch rest sdone srem s).1 = .ok newSubs →
        ∀ x ∈ newSubs, x.status ≠ Status.generating) := by
  intro srem
  induction srem with
  | nil =>
      intro sdone s hsdone _ hsnap
      rw [runSections]
      refine ⟨hsnap, ?_⟩
      intro newSubs hok
      cases hok
      exact hsdone
  | cons sc srem ih =>
      intro sdone s hsdone hsrem hsnap
      rw [runSections]
      simp only [pollCancel]
      cases hcv : env.cancel s with
      | true => exact ⟨hsnap, fun newSubs hok => by cases hok⟩
      | false =>
          simp only [Bool.false_eq_true, if_false, emitProgress]
          apply ih
          · intro x hx
            rcases List.mem_append.mp hx with h | h
            · exact hsdone x h
            · rcases List.mem_cons.mp h with rfl | h2
              · simp
              · cases h2
          · exact fun x hx => hsrem x (List.mem_cons_of_mem sc hx)
          · intro b hb
            rcases List.mem_append.mp hb with hb | hb
            · rcases List.mem_append.mp hb with hb | hb
              · exact hsnap b hb
              · rcases List.mem_cons.mp hb with rfl | h2
                · rw [generatingCount_mk base done _ rest
                    (sdone ++ { sc with status := Status.generating } :: srem)
                    (by simp [chapterSubsList]) hdone hrest]
                  rw [List.countP_append, List.countP_cons,
                    countP_status_zero hsdone,
                    countP_status_zero fun x hx =>
                      hsrem x (List.mem_cons_of_mem sc hx)]
                  simp
                · cases h2
            · rcases List.mem_cons.mp hb with rfl | h2
              · rw [generatingCount_mk base done _ rest
                  (sdone ++ { sc with
                    content := some (env.content sc.title sc.description)
                    status := Status.completed } :: srem)
                  (by simp [chapterSubsList]) hdone hrest]
                rw [List.countP_append, List.countP_cons,
                  countP_status_zero hsdone,
                  countP_status_zero fun x hx =>
                    hsrem x (List.mem_cons_of_mem sc hx)]
                simp
              · cases h2

theorem runChapters_genLe (env : GenEnv) (base : Book)
    (houtline : ∀ t d, ∀ x ∈ env.outline t d, x.status ≠ Status.generating) :
    ∀ (chs done : List BookChapter) (s : GenState),
      (∀ c ∈ done, ∀ x ∈ chapterSubsList c, x.status ≠ Status.generating) →
      (∀ c ∈ chs, ∀ x ∈ chapterSubsList c, x.status ≠ Status.generating) →
      (∀ b ∈ s.snapshots, generatingCount b ≤ 1) →
      ∀ b ∈ (runChapters env base done chs s).2.snapshots, generatingCount b ≤ 1 := by
  intro chs
  induction chs with
  | nil =>
      intro done s _ _ hsnap
      rw [runChapters]
      exact hsnap
  | cons ch rest ih =>
      intro done s hdone hch hsnap
      have hrestg : ∀ c ∈ rest, ∀ x ∈ chapterSubsList c, x.status ≠ Status.generating :=
        fun c hc2 => hch c (List.mem_cons_of_mem ch hc2)
      rw [runChapters]
      simp only [pollCancel]
      cases hcv : env.cancel s with
      | true => exact hsnap
      | false =>
          simp only [Bool.false_eq_true, if_false, emitProgress]
          cases hsub : ch.subChapters with
          | none =>
              simp only []
              have hsubs := houtline ch.title ch.description
              have hstate : ∀ b ∈ (({ s with
                  outlineCalls := s.outlineCalls + 1
                  polls := s.polls + 1
                  snapshots := s.snapshots ++
                    [mkBook base done
                      { ch with subChapters := some (env.outline ch.title ch.description) }
                      rest] } : GenState)).snapshots,
                  generatingCount b ≤ 1 := by
                intro b hb
                rcases List.mem_append.mp hb with hb | hb
                · exact hsnap b hb
                · rcases List.mem_cons.mp hb with rfl | h2
                  · rw [generatingCount_mk base done _ rest
                      (env.outline ch.title ch.description)
                      (by simp [chapterSubsList]) hdone hrestg]
                    rw [countP_status_zero hsubs]
                    omega
                  · cases h2
              have hsec := runSections_genLe env base done
                { ch with subChapters := some (env.outline ch.title ch.description) }
                rest hdone hrestg
                (env.outline ch.title ch.description) []
                ({ s with
                  outlineCalls := s.outlineCalls + 1
                  polls := s.polls + 1
                  snapshots := s.snapshots ++
                    [mkBook base done
                      { ch with subChapters := some (env.outline ch.title ch.description) }
                      rest] })
                (fun x hx => by cases hx) hsubs hstate
              cases hrs : runSections env base done
                { ch with subChapters := some (env.outline ch.title ch.description) }
                rest []
                (env.outline ch.title ch.description)
                ({ s with
                  outlineCalls := s.outlineCalls + 1
                  polls := s.polls + 1
                  snapshots := s.snapshots ++
                    [mkBook base done
                      { ch with subChapters := some (env.outline ch.title ch.description) }
                      rest] }) with
              | mk r s2 =>
                  rw [hrs] at hsec
                  cases r with
                  | error e =>
                      simp only []
                      exact hsec.1
                  | ok newSubs =>
                      simp only []
                      apply ih
                      · intro c hc2
                        rcases List.mem_append.mp hc2 with h | h
                        · exact hdone c h
                        · rcases List.mem_cons.mp h with rfl | h2
                          · intro x hx
                            exact hsec.2 newSubs rfl x
                              (by simpa [chapterSubsList] using hx)
                          · cases h2
                      · exact hrestg
                      · intro b hb
                        rcases List.mem_append.mp hb with hb | hb
                        · exact hsec.1 b hb
                        · rcases List.mem_cons.mp hb with rfl | h2
                          · rw [generatingCount_mk base done _ rest newSubs
                              (by simp [chapterSubsList]) hdone hrestg]
                            rw [countP_status_zero (hsec.2 newSubs rfl)]
                            omega
                          · cases h2
          | some subs =>
              simp only []
              have hsubs : ∀ x ∈ subs, x.status ≠ Status.generating := by
                intro x hx
                exact hch ch (List.mem_cons_self ch rest) x
                  (by simpa [chapterSubsList, hsub] using hx)
              have hsec := runSections_genLe env base done ch rest hdone hrestg
                subs [] ({ s with polls := s.polls + 1 })
                (fun x hx => by cases hx) hsubs hsnap
              cases hrs : runSections env base done ch rest [] subs
                ({ s with polls := s.polls + 1 }) with
              | mk r s2 =>
                  rw [hrs] at hsec
                  cases r with
                  | error e =>
                      simp only []
                      exact hsec.1
                  | ok newSubs =>
                      simp only []
                      apply ih
                      · intro c hc2
                        rcases List.mem_append.mp hc2 with h | h
                        · exact hdone c h
                        · rcases List.mem_cons.mp h with rfl | h2
                          · intro x hx
                            exact hsec.2 newSubs rfl x
                              (by simpa [chapterSubsList] using hx)
                          · cases h2
                      · exact hrestg
                      · intro b hb
                        rcases List.mem_append.mp hb with hb | hb
                        · exact hsec.1 b hb
                        · rcases List.mem_cons.mp hb with rfl | h2
                          · rw [generatingCount_mk base done _ rest newSubs
                              (by simp [chapterSubsList]) hdone hrestg]
                            rw [countP_status_zero (hsec.2 newSubs rfl)]
                            omega
                          · cases h2

/-- Exactly one node of the chapter/sub-chapter tree changes state between the
two book values. -/
def oneStep (a b : Book) : Prop := bookDiff a b = 1

theorem chain_snoc {l : List Book} {x y : Book}
    (hch : List.Chain' oneStep l) (hlast : l.getLast? = some x) (hr : oneStep x y) :
    List.Chain' oneStep (l ++ [y]) ∧ (l ++ [y]).getLast? = some y := by
  constructor
  · rw [List.chain'_append]
    refine ⟨hch, List.chain'_singleton y, ?_⟩
    intro a ha b hb
    rw [hlast] at ha
    simp only [Option.mem_def, Option.some.injEq] at ha
    simp only [List.head?_cons, Option.mem_def, Option.some.injEq] at hb
    subst ha
    subst hb
    exact hr
  · rw [List.getLast?_append_cons]
    rfl

theorem subDiff_of_status_ne {x y : SubChapter} (h : x.status ≠ y.status) :
    subDiff x y = 1 := by
  unfold subDiff
  rw [if_neg]
  intro heq
  exact h (congrArg SubChapter.status heq)

theorem chapDiff_some_some (ch : BookChapter) (X Y : List SubChapter) :
    chapDiff { ch with subChapters := some X } { ch with subChapters := some Y } =
      subsDiff X Y := by
  unfold chapDiff
  have hcond : chapOwn { ch with subChapters := some X } =
      chapOwn { ch with subChapters := some Y } := rfl
  rw [if_pos hcond]
  simp

theorem chapDiff_attach (ch : BookChapter) (subs : List SubChapter)
    (h : ch.subChapters = none) :
    chapDiff ch { ch with subChapters := some subs } = 1 := by
  unfold chapDiff
  rw [if_neg, h]
  · simp
  · unfold chapOwn
    rw [h]
    intro heq
    have := congrArg (fun t => t.2.2.2.2) heq
    simp at this

theorem chapDiff_complete (ch : BookChapter) (X : List SubChapter)
    (h : ch.status ≠ Status.completed) :
    chapDiff { ch with subChapters := some X }
      { ch with subChapters := some X, status := Status.completed } = 1 := by
  unfold chapDiff
  rw [if_neg]
  · simp [subsDiff_self]
  · unfold chapOwn
    intro heq
    have := congrArg (fun t => t.2.2.2.1) heq
    simp at this
    exact h this

theorem chapter_eta (ch : BookChapter) (subs : List SubChapter)
    (h : ch.subChapters = some subs) : { ch with subChapters := some subs } = ch := by
  cases ch
  simp_all

theorem runSections_chain (env : GenEnv) (base : Book) (done : List BookChapter)
    (ch : BookChapter) (rest : List BookChapter) (init : Book) :
    ∀ (srem sdone : List SubChapter) (s : GenState),
      (∀ x ∈ srem, x.status ≠ Status.generating) →
      List.Chain' oneStep (init :: s.snapshots) →
      (init :: s.snapshots).getLast? =
        some (mkBook base done { ch with subChapters := some (sdone ++ srem) } rest) →
      List.Chain' oneStep
        (init :: (runSections env base done ch rest sdone srem s).2.snapshots) ∧
      (∀ newSubs, (runSections env base done ch rest sdone srem s).1 = .ok newSubs →
        (init :: (runSections env base done ch rest sdone srem s).2.snapshots).getLast? =
          some (mkBook base done { ch with subChapters := some newSubs } rest)) := by
  intro srem
  induction srem with
  | nil =>
      intro sdone s _ hchain hlast
      rw [runSections]
      refine ⟨hchain, ?_⟩
      intro newSubs hok
      cases hok
      rw [hlast, List.append_nil]
  | cons sc srem ih =>
      intro sdone s hsrem hchain hlast
      rw [runSections]
      simp only [pollCancel]
      cases hcv : env.cancel s with
      | true =>
          refine ⟨hchain, ?_⟩
          intro newSubs hok
          cases hok
      | false =>
          simp only [Bool.false_eq_true, if_false, emitProgress]
          have hstep1 : oneStep
              (mkBook base done { ch with subChapters := some (sdone ++ sc :: srem) } rest)
              (mkBook base done
                { ch with
                  subChapters := some (sdone ++ { sc with status := Status.generating } :: srem) }
                rest) := by
            unfold oneStep
            rw [bookDiff_mk, chapDiff_some_some, subsDiff_mid]
            exact subDiff_of_status_ne (hsrem sc (List.mem_cons_self sc srem))
          have hc1 := chain_snoc hchain hlast hstep1
          rw [List.cons_append] at hc1
          have hstep2 : oneStep
              (mkBook base done
                { ch with
                  subChapters := some (sdone ++ { sc with status := Status.generating } :: srem) }
                rest)
              (mkBook base done
                { ch with
                  subChapters := some (sdone ++ { sc with content := some (env.content sc.title sc.description), status := Status.completed } :: srem) }
                rest) := by
            unfold oneStep
            rw [bookDiff_mk, chapDiff_some_some, subsDiff_mid]
            exact subDiff_of_status_ne (by simp)
          have hc2 := chain_snoc hc1.1 hc1.2 hstep2
          rw [List.cons_append] at hc2
          have hlast2 := hc2.2
          have hsplit : sdone ++ { sc with content := some (env.content sc.title sc.description), status := Status.completed } :: srem = (sdone ++ [{ sc with content := some (env.content sc.title sc.description), status := Status.completed }]) ++ srem := by
            rw [List.append_assoc, List.singleton_append]
          nth_rewrite 2 [hsplit] at hlast2
          exact ih _ _ (fun x hx => hsrem x (List.mem_cons_of_mem sc hx)) hc2.1 hlast2

theorem mkBook_snoc (base : Book) (done : List BookChapter) (c : BookChapter)
    (rest : List BookChapter) :
    ({ base with chapters := (done ++ [c]) ++ rest } : Book) = mkBook base done c rest := by
  unfold mkBook
  rw [List.append_assoc, List.singleton_append]

theorem runChapters_chain (env : GenEnv) (base : Book) (init : Book)
    (houtline : ∀ t d, ∀ x ∈ env.outline t d, x.status ≠ Status.generating) :
    ∀ (chs done : List BookChapter) (s : GenState),
      (∀ c ∈ chs, (∀ x ∈ chapterSubsList c, x.status ≠ Status.generating) ∧
        c.status ≠ Status.completed) →
      List.Chain' oneStep (init :: s.snapshots) →
      (init :: s.snapshots).getLast? = some { base with chapters := done ++ chs } →
      List.Chain' oneStep (init :: (runChapters env base done chs s).2.snapshots) := by
  intro chs
  induction chs with
  | nil =>
      intro done s _ hchain _
      rw [runChapters]
      exact hchain
  | cons ch rest ih =>
      intro done s hch hchain hlast
      have hrest : ∀ c ∈ rest, (∀ x ∈ chapterSubsList c, x.status ≠ Status.generating) ∧
          c.status ≠ Status.completed :=
        fun c hc2 => hch c (List.mem_cons_of_mem ch hc2)
      have hstatus : ch.status ≠ Status.completed := (hch ch (List.mem_cons_self ch rest)).2
      rw [runChapters]
      simp only [pollCancel]
      cases hcv : env.cancel s with
      | true => exact hchain
      | false =>
          simp only [Bool.false_eq_true, if_false, emitProgress]
          cases hsub : ch.subChapters with
          | none =>
              simp only []
              have hsubs := houtline ch.title ch.description
              have hstepO : oneStep { base with chapters := done ++ ch :: rest }
                  (mkBook base done
                    { ch with subChapters := some (env.outline ch.title ch.description) }
                    rest) := by
                unfold oneStep
                have : ({ base with chapters := done ++ ch :: rest } : Book) =
                    mkBook base done ch rest := rfl
                rw [this, bookDiff_mk]
                exact chapDiff_attach ch (env.outline ch.title ch.description) hsub
              have hcO := chain_snoc hchain hlast hstepO
              rw [List.cons_append] at hcO
              have hsec := runSections_chain env base done
                { ch with subChapters := some (env.outline ch.title ch.description) }
                rest init (env.outline ch.title ch.description) []
                ({ s with
                  outlineCalls := s.outlineCalls + 1
                  polls := s.polls + 1
                  snapshots := s.snapshots ++
                    [mkBook base done
                      { ch with subChapters := some (env.outline ch.title ch.description) }
                      rest] })
                hsubs hcO.1 hcO.2
              cases hrs : runSections env base done
                { ch with subChapters := some (env.outline ch.title ch.description) }
                rest []
                (env.outline ch.title ch.description)
                ({ s with
                  outlineCalls := s.outlineCalls + 1
                  polls := s.polls + 1
                  snapshots := s.snapshots ++
                    [mkBook base done
                      { ch with subChapters := some (env.outline ch.title ch.description) }
                      rest] }) with
              | mk r s2 =>
                  rw [hrs] at hsec
                  cases r with
                  | error e =>
                      simp only []
                      exact hsec.1
                  | ok newSubs =>
                      simp only []
                      have hstepC : oneStep
                          (mkBook base done
                            { ch with subChapters := some newSubs } rest)
                          (mkBook base done
                            { ch with subChapters := some newSubs, status := Status.completed }
                            rest) := by
                        unfold oneStep
                        rw [bookDiff_mk]
                        exact chapDiff_complete ch newSubs hstatus
                      have hcC := chain_snoc hsec.1 (hsec.2 newSubs rfl) hstepC
                      rw [List.cons_append] at hcC
                      have hlastC : (init :: (s2.snapshots ++
                          [mkBook base done
                            { ch with subChapters := some newSubs, status := Status.completed }
                            rest])).getLast? =
                          some { base with chapters :=
                            (done ++
                              [{ ch with subChapters := some newSubs, status := Status.completed }]) ++
                              rest } := by
                        rw [mkBook_snoc]
                        exact hcC.2
                      exact ih _ _ hrest hcC.1 hlastC
          | some subs =>
              simp only []
              have hsubs : ∀ x ∈ subs, x.status ≠ Status.generating := by
                intro x hx
                exact (hch ch (List.mem_cons_self ch rest)).1 x
                  (by simpa [chapterSubsList, hsub] using hx)
              have hlastE : (init :: s.snapshots).getLast? =
                  some (mkBook base done { ch with subChapters := some ([] ++ subs) } rest) := by
                rw [List.nil_append, chapter_eta ch subs hsub]
                exact hlast
              have hsec := runSections_chain env base done ch rest init subs []
                ({ s with polls := s.polls + 1 }) hsubs hchain hlastE
              cases hrs : runSections env base done ch rest [] subs
                ({ s with polls := s.polls + 1 }) with
              | mk r s2 =>
                  rw [hrs] at hsec
                  cases r with
                  | error e =>
                      simp only []
                      exact hsec.1
                  | ok newSubs =>
                      simp only []
                      have hstepC : oneStep
                          (mkBook base done
                            { ch with subChapters := some newSubs } rest)
                          (mkBook base done
                            { ch with subChapters := some newSubs, status := Status.completed }
                            rest) := by
                        unfold oneStep
                        rw [bookDiff_mk]
                        exact chapDiff_complete ch newSubs hstatus
                      have hcC := chain_snoc hsec.1 (hsec.2 newSubs rfl) hstepC
                      rw [List.cons_append] at hcC
                      have hlastC : (init :: (s2.snapshots ++
                          [mkBook base done
                            { ch with subChapters := some newSubs, status := Status.completed }
                            rest])).getLast? =
                          some { base with chapters :=
                            (done ++
                              [{ ch with subChapters := some newSubs, status := Status.completed }]) ++
                              rest } := by
                        rw [mkBook_snoc]
                        exact hcC.2
                      exact ih _ _ hrest hcC.1 hlastC

/-- Claim C8 (amended): starting from a Book in which no sub-chapter has status
`generating` (and with the outline oracle returning `pending` sub-chapters, as
the provider adapters do), every snapshot passed to `onProgress` contains at
most one sub-chapter with status `generating`; and if additionally no chapter
starts with status `completed`, then between two consecutive `onProgress`
emissions exactly one node of the chapter/sub-chapter tree changes state. The
extra chapter-status proviso is needed: re-running a chapter whose status is
already `completed` produces a chapter-level emission that changes no node. -/
theorem claim_C8_snapshots_amended (env : GenEnv) (book : Book)
    (hnogen : ∀ c ∈ book.chapters, ∀ x ∈ chapterSubsList c, x.status ≠ Status.generating)
    (houtline : ∀ t d, ∀ x ∈ env.outline t d, x.status ≠ Status.generating) :
    (∀ b ∈ (generateAllContent env book).2.snapshots, generatingCount b ≤ 1) ∧
    ((∀ c ∈ book.chapters, c.status ≠ Status.completed) →
      List.Chain' oneStep (generateAllContent env book).2.snapshots) := by
  have hstate : (generateAllContent env book).2 =
      (runChapters env book [] book.chapters GenState.init).2 := by
    unfold generateAllContent
    cases h : runChapters env book [] book.chapters GenState.init with
    | mk r s => cases r <;> rfl
  constructor
  · rw [hstate]
    exact runChapters_genLe env book houtline book.chapters [] GenState.init
      (fun c hc => by cases hc) hnogen (fun b hb => by cases hb)
  · intro hncomp
    rw [hstate]
    have h := runChapters_chain env book book houtline book.chapters [] GenState.init
      (fun c hc => ⟨hnogen c hc, hncomp c hc⟩)
      (List.chain'_singleton book) rfl
    exact h.tail

/-- Outline sub-chapter returned by the C8 witness environment. -/
def wSub8o : SubChapter :=
  { id := "o1", title := "O1", description := "o1d", status := Status.pending }

/-- Environment for the C8 witness: constant outline and content oracles,
cancellation never requested. -/
def wEnv8 : GenEnv := ⟨fun _ _ => [wSub8o], fun _ _ => "body8", fun _ => false⟩

/-- Book for the C8 witness: a chapter without sections and a chapter with one
pending section; no sub-chapter generating, no chapter completed. -/
def wBook8 : Book :=
  { id := "b8"
    title := "T8"
    description := "d8"
    genre := "g"
    tone := "t"
    status := BookStatus.draft
    chapters := [{ id := "c81"
                   title := "C81"
                   description := "c81d"
                   status := Status.pending },
                 { id := "c82"
                   title := "C82"
                   description := "c82d"
                   subChapters := some [{ id := "s81"
                                          title := "S81"
                                          description := "s81d"
                                          status := Status.pending }]
                   status := Status.pending }] }

theorem claim_C8_snapshots_amended_witness :
    (∀ c ∈ wBook8.chapters, ∀ x ∈ chapterSubsList c, x.status ≠ Status.generating) ∧
    ((∀ b ∈ (generateAllContent wEnv8 wBook8).2.snapshots, generatingCount b ≤ 1) ∧
      ((∀ c ∈ wBook8.chapters, c.status ≠ Status.completed) →
        List.Chain' oneStep (generateAllContent wEnv8 wBook8).2.snapshots)) :=
  ⟨by decide, claim_C8_snapshots_amended wEnv8 wBook8 (by decide)
    (fun _ _ => (by decide : ∀ x ∈ [wSub8o], x.status ≠ Status.generating))⟩

/-- Environment for the C8 counterexample: content oracle constant,
cancellation never requested, outline oracle unused. -/
def cEnv8 : GenEnv := ⟨fun _ _ => [], fun _ _ => "x", fun _ => false⟩

/-- Book for the C8 counterexample: one chapter whose status is already
`completed` holding a single pending section; no sub-chapter is generating. -/
def cBook8 : Book :=
  { id := "cb8"
    title := "CT8"
    description := "cd8"
    genre := "g"
    tone := "t"
    status := BookStatus.draft
    chapters := [{ id := "cc8"
                   title := "CC8"
                   description := "ccd8"
                   subChapters := some [{ id := "cs8"
                                          title := "CS8"
                                          description := "csd8"
                                          status := Status.pending }]
                   status := Status.completed }] }

/-- Counterexample to C8 as stated: on a Book with no `generating` sub-chapter
but a chapter whose status is already `completed`, the run's chapter-level
emission changes no node of the tree, so consecutive `onProgress` emissions do
not always differ in exactly one node. -/
theorem claim_C8_counterexample :
    (∀ c ∈ cBook8.chapters, ∀ x ∈ chapterSubsList c, x.status ≠ Status.generating) ∧
    List.zipWith bookDiff (generateAllContent cEnv8 cBook8).2.snapshots
      (generateAllContent cEnv8 cBook8).2.snapshots.tail = [1, 0] ∧ (0 : Nat) ≠ 1 := by
  decide

end Unstack
